import Mathlib

/-!
# CasparCG core: transform algebra, image mixer, frame fan-out, channel reconfiguration

A shallow embedding of

* `core/producer/frame/image_transform.cpp` (transform value, composition, `tween`),
* `core/mixer/image/image_mixer.cpp` (transform/mode stacks, layers),
* `core/consumer/frame_consumer_device.cpp` (ring buffer and sink registry),
* `core/video_channel.cpp` (`set_video_format_desc`),

followed by the properties established about them.  `double` values are taken as exact
rationals: rounding, the infinities and NaN are outside the definitions over `ℚ`; where NaN
decides (the two clamping setters) the type `double` below tells NaN from a number.
`std::vector`/`std::deque` are lists whose last element is `back()`.
-/

namespace caspar.core

/-! ## Definitions: image_transform.cpp -/

/-- Field mode (`video_mode::type`); `invalid` is the value of an unset mode. -/
inductive video_mode where
  | progressive
  | lower
  | upper
  | invalid
  deriving DecidableEq, Repr

/-- The private members of `image_transform`; the two-element arrays are pairs. -/
structure image_transform where
  opacity_ : ℚ
  gain_ : ℚ
  fill_translation_ : ℚ × ℚ
  fill_scale_ : ℚ × ℚ
  key_translation_ : ℚ × ℚ
  key_scale_ : ℚ × ℚ
  mode_ : video_mode
  deriving DecidableEq

/-- The default constructor `image_transform::image_transform()`. -/
def image_transform.ctor : image_transform where
  opacity_ := 1
  gain_ := 1
  mode_ := video_mode.invalid
  fill_translation_ := (0, 0)
  fill_scale_ := (1, 1)
  key_translation_ := (0, 0)
  key_scale_ := (1, 1)

/-- The setter `set_opacity` for an argument that is a number: `std::max(value, 0.0)`.  What
it stores for NaN is given by `set_opacity_double`. -/
def image_transform.set_opacity (self : image_transform) (value : ℚ) : image_transform :=
  { self with opacity_ := max value 0 }

def image_transform.get_opacity (self : image_transform) : ℚ := self.opacity_

/-- The setter `set_gain` for an argument that is a number: `std::max(0.0, value)`.  What it
stores for NaN is given by `set_gain_double`. -/
def image_transform.set_gain (self : image_transform) (value : ℚ) : image_transform :=
  { self with gain_ := max 0 value }

def image_transform.get_gain (self : image_transform) : ℚ := self.gain_

def image_transform.set_fill_translation (self : image_transform) (x y : ℚ) : image_transform :=
  { self with fill_translation_ := (x, y) }

def image_transform.set_fill_scale (self : image_transform) (x y : ℚ) : image_transform :=
  { self with fill_scale_ := (x, y) }

def image_transform.get_fill_translation (self : image_transform) : ℚ × ℚ :=
  self.fill_translation_

def image_transform.get_fill_scale (self : image_transform) : ℚ × ℚ := self.fill_scale_

def image_transform.set_key_translation (self : image_transform) (x y : ℚ) : image_transform :=
  { self with key_translation_ := (x, y) }

def image_transform.set_key_scale (self : image_transform) (x y : ℚ) : image_transform :=
  { self with key_scale_ := (x, y) }

def image_transform.get_key_translation (self : image_transform) : ℚ × ℚ :=
  self.key_translation_

def image_transform.get_key_scale (self : image_transform) : ℚ × ℚ := self.key_scale_

def image_transform.set_mode (self : image_transform) (mode : video_mode) : image_transform :=
  { self with mode_ := mode }

def image_transform.get_mode (self : image_transform) : video_mode := self.mode_

/-- The compound assignment `operator*=`: the statements of the body in source order, each
reading the members as already updated by the statements before it. -/
def image_transform.mul_assign (self other : image_transform) : image_transform :=
  let s := { self with opacity_ := self.opacity_ * other.opacity_ }
  let s := if other.mode_ ≠ video_mode.invalid then { s with mode_ := other.mode_ } else s
  let s := { s with gain_ := s.gain_ * other.gain_ }
  let s := { s with fill_translation_ :=
    (s.fill_translation_.1 + other.fill_translation_.1 * s.fill_scale_.1, s.fill_translation_.2) }
  let s := { s with fill_translation_ :=
    (s.fill_translation_.1, s.fill_translation_.2 + other.fill_translation_.2 * s.fill_scale_.2) }
  let s := { s with fill_scale_ := (s.fill_scale_.1 * other.fill_scale_.1, s.fill_scale_.2) }
  let s := { s with fill_scale_ := (s.fill_scale_.1, s.fill_scale_.2 * other.fill_scale_.2) }
  let s := { s with key_translation_ :=
    (s.key_translation_.1 + other.key_translation_.1 * s.key_scale_.1, s.key_translation_.2) }
  let s := { s with key_translation_ :=
    (s.key_translation_.1, s.key_translation_.2 + other.key_translation_.2 * s.key_scale_.2) }
  let s := { s with key_scale_ := (s.key_scale_.1 * other.key_scale_.1, s.key_scale_.2) }
  let s := { s with key_scale_ := (s.key_scale_.1, s.key_scale_.2 * other.key_scale_.2) }
  s

/-- The binary `operator*`: a copy of the left operand, then `*=`. -/
def image_transform.mul (self other : image_transform) : image_transform :=
  self.mul_assign other

instance : Mul image_transform := ⟨image_transform.mul⟩

/-- The easing function type `tweener_t`: arguments `(time, start, delta, duration)`. -/
abbrev tweener_t := ℚ → ℚ → ℚ → ℚ → ℚ

/-- The linear easing function `(t, b, c, d) ↦ b + c*t/d`. -/
def linear_tweener : tweener_t := fun t b c d => b + c * t / d

/-- The free function `tween`.  The `CASPAR_ASSERT` on the two modes is a debug-only
precondition and has no effect on the value returned.  The scalars are exact rationals: what
the easing function and the setters compute in `double` is rounded, and is NaN or infinite
for a duration of 0, none of which these definitions show. -/
def tween (time : ℚ) (source dest : image_transform) (duration : ℚ) (tweener : tweener_t) :
    image_transform :=
  let do_tween := fun (time source dest duration : ℚ) (tweener : tweener_t) =>
    tweener time source (dest - source) duration
  let result := image_transform.ctor
  let result := result.set_mode
    (if dest.get_mode ≠ video_mode.invalid then dest.get_mode else source.get_mode)
  let result := result.set_gain (do_tween time source.get_gain dest.get_gain duration tweener)
  let result := result.set_opacity
    (do_tween time source.get_opacity dest.get_opacity duration tweener)
  let result := result.set_fill_translation
    (do_tween time source.get_fill_translation.1 dest.get_fill_translation.1 duration tweener)
    (do_tween time source.get_fill_translation.2 dest.get_fill_translation.2 duration tweener)
  let result := result.set_fill_scale
    (do_tween time source.get_fill_scale.1 dest.get_fill_scale.1 duration tweener)
    (do_tween time source.get_fill_scale.2 dest.get_fill_scale.2 duration tweener)
  let result := result.set_key_translation
    (do_tween time source.get_key_translation.1 dest.get_key_translation.1 duration tweener)
    (do_tween time source.get_key_translation.2 dest.get_key_translation.2 duration tweener)
  let result := result.set_key_scale
    (do_tween time source.get_key_scale.1 dest.get_key_scale.1 duration tweener)
    (do_tween time source.get_key_scale.2 dest.get_key_scale.2 duration tweener)
  result

/-- The precondition asserted by `tween`: the modes agree or one of them is unset. -/
def tween_modes_compatible (source dest : image_transform) : Prop :=
  source.get_mode = dest.get_mode ∨ source.get_mode = video_mode.invalid ∨
    dest.get_mode = video_mode.invalid

instance (source dest : image_transform) : Decidable (tween_modes_compatible source dest) := by
  unfold tween_modes_compatible; infer_instance

/-- The class invariant kept by the constructor, the clamping setters, `*=` and `tween`:
opacity and gain are never negative. -/
def image_transform.clamped (t : image_transform) : Prop :=
  0 ≤ t.opacity_ ∧ 0 ≤ t.gain_

instance (t : image_transform) : Decidable t.clamped := by
  unfold image_transform.clamped; infer_instance

/-- A `double` as far as the comparison `<` tells values apart: NaN, or a number (the two
infinities are left out). -/
inductive double where
  | nan
  | num (value : ℚ)
  deriving DecidableEq

/-- The comparison `a < b` of two doubles: false as soon as one of them is NaN. -/
def double.lt : double → double → Bool
  | double.num a, double.num b => decide (a < b)
  | _, _ => false

/-- The comparison `0.0 <= a`: false for NaN. -/
def double.nonneg : double → Bool
  | double.num a => decide (0 ≤ a)
  | double.nan => false

/-- The function `std::max(a, b)` on doubles: `(a < b) ? b : a`. -/
def std_max (a b : double) : double := if double.lt a b then b else a

/-- The value that `set_opacity(value)` stores in `opacity_`: `std::max(value, 0.0)`. -/
def set_opacity_double (value : double) : double := std_max value (double.num 0)

/-- The value that `set_gain(value)` stores in `gain_`: `std::max(0.0, value)`. -/
def set_gain_double (value : double) : double := std_max (double.num 0) value

/-- A way of obtaining a transform through the public interface: the default constructor,
followed by setters, compositions and `tween` calls with any time, duration and easing
function. -/
inductive transform_expr where
  | ctor
  | set_opacity (e : transform_expr) (value : ℚ)
  | set_gain (e : transform_expr) (value : ℚ)
  | set_fill_translation (e : transform_expr) (x y : ℚ)
  | set_fill_scale (e : transform_expr) (x y : ℚ)
  | set_key_translation (e : transform_expr) (x y : ℚ)
  | set_key_scale (e : transform_expr) (x y : ℚ)
  | set_mode (e : transform_expr) (mode : video_mode)
  | mul (lhs rhs : transform_expr)
  | tween (time : ℚ) (source dest : transform_expr) (duration : ℚ) (tweener : tweener_t)

/-- The transform obtained. -/
def transform_expr.eval : transform_expr → image_transform
  | transform_expr.ctor => image_transform.ctor
  | transform_expr.set_opacity e value => e.eval.set_opacity value
  | transform_expr.set_gain e value => e.eval.set_gain value
  | transform_expr.set_fill_translation e x y => e.eval.set_fill_translation x y
  | transform_expr.set_fill_scale e x y => e.eval.set_fill_scale x y
  | transform_expr.set_key_translation e x y => e.eval.set_key_translation x y
  | transform_expr.set_key_scale e x y => e.eval.set_key_scale x y
  | transform_expr.set_mode e mode => e.eval.set_mode mode
  | transform_expr.mul lhs rhs => lhs.eval * rhs.eval
  | transform_expr.tween time source dest duration tweener =>
    caspar.core.tween time source.eval dest.eval duration tweener

/-! ## Definitions: image_mixer.cpp -/

/-- The result of `std::vector::back()`: undefined (`none`) on an empty container. -/
def back {α : Type} (v : List α) : Option α := v.getLast?

/-- The result of `std::vector::pop_back()`: undefined (`none`) on an empty container,
otherwise the container without its last element. -/
def pop_back {α : Type} (v : List α) : Option (List α) :=
  match v with
  | [] => none
  | _ :: _ => some v.dropLast

/-- Modelled from the spec: `core::basic_frame`, whose header is not among the sources; `begin`
reads its transform and its field mode. -/
structure basic_frame where
  image_transform_ : image_transform
  mode_ : video_mode
  deriving DecidableEq

def basic_frame.get_image_transform (self : basic_frame) : image_transform :=
  self.image_transform_

def basic_frame.get_mode (self : basic_frame) : video_mode := self.mode_

/-- Modelled from the spec: the pixel-layout descriptor `pixel_format_desc`, whose header is not
among the sources: a pixel format code and, per plane, width, height, channel count and byte
size. -/
structure pixel_format_desc where
  pix_fmt : Nat
  planes : List (Nat × Nat × Nat × Nat)
  deriving DecidableEq

/-- Modelled from the spec: `core::write_frame`, whose header is not among the sources; `visit`
reads its pixel layout, its device texture handles and its tag. -/
structure write_frame where
  desc_ : pixel_format_desc
  textures_ : List Nat
  tag_ : Nat
  deriving DecidableEq

def write_frame.get_pixel_format_desc (self : write_frame) : pixel_format_desc := self.desc_

def write_frame.get_textures (self : write_frame) : List Nat := self.textures_

def write_frame.tag (self : write_frame) : Nat := self.tag_

/-- Modelled from the spec: `render_item` (declared in `image_kernel.h`, not among the sources),
with the members in the order of the constructor call in `visit`. -/
structure render_item where
  desc : pixel_format_desc
  textures : List Nat
  transform : image_transform
  mode : video_mode
  tag : Nat
  deriving DecidableEq

/-- Modelled from the spec: equality of render items, "two items are equal if pixel layout,
textures, transform and field_mode are all equal".  The functions below take the comparison as
an argument; this is the one the specification describes. -/
def render_item.spec_eq (lhs rhs : render_item) : Bool :=
  decide (lhs.desc = rhs.desc ∧ lhs.textures = rhs.textures ∧ lhs.transform = rhs.transform ∧
    lhs.mode = rhs.mode)

/-- The members of `image_mixer::implementation` that `begin`, `visit`, `end`, `begin_layer`,
`end_layer` and the first `render` touch. -/
structure image_mixer where
  transform_stack_ : List image_transform
  mode_stack_ : List video_mode
  layers_ : List (List render_item)
  deriving DecidableEq

/-- The constructor: one default transform, one `progressive` mode, no layer. -/
def image_mixer.ctor : image_mixer where
  transform_stack_ := [image_transform.ctor]
  mode_stack_ := [video_mode.progressive]
  layers_ := []

/-- The member `begin`.  `back()` of an empty stack is undefined: `none`. -/
def image_mixer.begin (self : image_mixer) (frame : basic_frame) : Option image_mixer :=
  match back self.transform_stack_, back self.mode_stack_ with
  | some t, some m =>
    some { self with
      transform_stack_ := self.transform_stack_ ++ [t * frame.get_image_transform]
      mode_stack_ := self.mode_stack_ ++
        [if frame.get_mode = video_mode.progressive then m else frame.get_mode] }
  | _, _ => none

/-- The member `visit`; `item_eq` is `operator==` of `render_item`.  The `CASPAR_ASSERT` on
`layers_` does nothing in a build in which this source compiles (the one in `tween` names
variables that do not exist), so the interlace test comes first and returns whether or not a
layer is open.  After it, `back()` of an empty stack or of an empty layer list is undefined:
`none`. -/
def image_mixer.visit (item_eq : render_item → render_item → Bool) (self : image_mixer)
    (frame : write_frame) : Option image_mixer :=
  if video_mode.upper ∈ self.mode_stack_ ∧ video_mode.lower ∈ self.mode_stack_ then
    some self
  else
    match back self.transform_stack_, back self.mode_stack_, back self.layers_ with
    | some t, some m, some layer =>
      let item : render_item :=
        ⟨frame.get_pixel_format_desc, frame.get_textures, t, m, frame.tag⟩
      if layer.any (fun x => item_eq x item) then some self
      else some { self with layers_ := self.layers_.dropLast ++ [layer ++ [item]] }
    | _, _, _ => none

/-- The member `end`: two `pop_back` calls, no check.  `pop_back()` of an empty stack is
undefined: `none`. -/
def image_mixer.end_ (self : image_mixer) : Option image_mixer :=
  match pop_back self.transform_stack_ with
  | none => none
  | some ts =>
    match pop_back self.mode_stack_ with
    | none => none
    | some ms => some { self with transform_stack_ := ts, mode_stack_ := ms }

/-- The member `begin_layer`. -/
def image_mixer.begin_layer (self : image_mixer) : image_mixer :=
  { self with layers_ := self.layers_ ++ [[]] }

/-- The member `end_layer`: an empty body. -/
def image_mixer.end_layer (self : image_mixer) : image_mixer := self

/-- A call made on the mixer during a pass. -/
inductive mixer_call where
  | begin (frame : basic_frame)
  | visit (frame : write_frame)
  | end_
  | begin_layer
  | end_layer
  deriving DecidableEq

/-- One call applied to the mixer. -/
def image_mixer.call (item_eq : render_item → render_item → Bool) (self : image_mixer) :
    mixer_call → Option image_mixer
  | mixer_call.begin frame => self.begin frame
  | mixer_call.visit frame => self.visit item_eq frame
  | mixer_call.end_ => self.end_
  | mixer_call.begin_layer => some self.begin_layer
  | mixer_call.end_layer => some self.end_layer

/-- A sequence of calls applied in order; `none` as soon as one call is undefined. -/
def image_mixer.run (item_eq : render_item → render_item → Bool) (self : image_mixer) :
    List mixer_call → Option image_mixer
  | [] => some self
  | c :: cs =>
    match self.call item_eq c with
    | none => none
    | some s => s.run item_eq cs

/-- The number of `begin` calls still open after the calls `ops`, starting with `k` open;
`none` when some `end` has no open `begin` to close. -/
def open_begins (k : Nat) : List mixer_call → Option Nat
  | [] => some k
  | mixer_call.begin _ :: cs => open_begins (k + 1) cs
  | mixer_call.end_ :: cs => if k = 0 then none else open_begins (k - 1) cs
  | _ :: cs => open_begins k cs

/-- A well-nested sequence: every `end` closes a `begin` of the sequence and none stays open. -/
def well_nested (ops : List mixer_call) : Prop := open_begins 0 ops = some 0

instance (ops : List mixer_call) : Decidable (well_nested ops) := by
  unfold well_nested; infer_instance

/-- Every `visit` of the sequence has a layer to add to: `has_layer` tells whether one exists
before the sequence, and a `begin_layer` creates one. -/
def visits_have_layer (has_layer : Bool) : List mixer_call → Bool
  | [] => true
  | mixer_call.visit _ :: cs => has_layer && visits_have_layer has_layer cs
  | mixer_call.begin_layer :: cs => visits_have_layer true cs
  | _ :: cs => visits_have_layer has_layer cs

/-- A small pass used to instantiate statements: one layer, one scope with one drawable. -/
def example_pass : List mixer_call :=
  [mixer_call.begin_layer,
   mixer_call.begin ⟨image_transform.ctor, video_mode.upper⟩,
   mixer_call.visit ⟨⟨0, []⟩, [7], 1⟩,
   mixer_call.end_,
   mixer_call.end_layer]

/-- The public member `render()`: the accumulated layers are moved out of `layers_`, which is
left empty, and become the argument of the composite queued on the device context.  The result
is the state after the call and the layers handed to the composite. -/
def image_mixer.render (self : image_mixer) : image_mixer × List (List render_item) :=
  let layers := self.layers_
  ({ self with layers_ := [] }, layers)

/-- A call made on the mixer: one of the calls of a pass, or `render`. -/
inductive mixer_event where
  | call (c : mixer_call)
  | render
  deriving DecidableEq

/-- A sequence of calls and renders applied in order; `none` as soon as one call is undefined.
The result is the final state and the layer lists handed to the composite by the renders, in
order. -/
def image_mixer.run_events (item_eq : render_item → render_item → Bool) (self : image_mixer) :
    List mixer_event → Option (image_mixer × List (List (List render_item)))
  | [] => some (self, [])
  | mixer_event.call c :: es =>
    match self.call item_eq c with
    | none => none
    | some s => s.run_events item_eq es
  | mixer_event.render :: es =>
    match self.render.1.run_events item_eq es with
    | none => none
    | some (s, rendered) => some (s, self.render.2 :: rendered)

/-- A layer without duplicates: no item compares equal (`earlier == later`, the comparison
made by `find` in `visit`) to an item that follows it. -/
def duplicate_free (item_eq : render_item → render_item → Bool) (layer : List render_item) :
    Prop :=
  layer.Pairwise (fun x y => item_eq x y = false)

/-- A sequence of calls and renders that the mixer can run: with `k` begins open and
`has_layer` telling whether a layer is open, every `end` closes an open `begin` and every
`visit` has a layer open (`begin_layer` opens one, `render` takes them all away). -/
def events_well_formed (k : Nat) (has_layer : Bool) : List mixer_event → Bool
  | [] => true
  | mixer_event.call (mixer_call.begin _) :: es => events_well_formed (k + 1) has_layer es
  | mixer_event.call (mixer_call.visit _) :: es =>
    has_layer && events_well_formed k has_layer es
  | mixer_event.call mixer_call.end_ :: es =>
    decide (1 ≤ k) && events_well_formed (k - 1) has_layer es
  | mixer_event.call mixer_call.begin_layer :: es => events_well_formed k true es
  | mixer_event.call mixer_call.end_layer :: es => events_well_formed k has_layer es
  | mixer_event.render :: es => events_well_formed k false es

/-- The render item that `visit` builds for a drawable under the given stack tops. -/
def item_of (frame : write_frame) (t : image_transform) (m : video_mode) : render_item :=
  ⟨frame.get_pixel_format_desc, frame.get_textures, t, m, frame.tag⟩

/-- Two drawables used to instantiate statements. -/
def drawable_one : write_frame := ⟨⟨0, []⟩, [7], 1⟩

def drawable_two : write_frame := ⟨⟨0, []⟩, [8], 2⟩

/-- Two sibling scopes in one layer: `begin(upper)`, `visit`, `end`, `begin(lower)`, `visit`,
`end`. -/
def sibling_pass : List mixer_call :=
  [mixer_call.begin_layer,
   mixer_call.begin ⟨image_transform.ctor, video_mode.upper⟩,
   mixer_call.visit drawable_one,
   mixer_call.end_,
   mixer_call.begin ⟨image_transform.ctor, video_mode.lower⟩,
   mixer_call.visit drawable_two,
   mixer_call.end_,
   mixer_call.end_layer]

/-- Two passes, each visiting the same drawable twice in one layer, each followed by a
render, and a third layer left open. -/
def example_events : List mixer_event :=
  [mixer_event.call mixer_call.begin_layer,
   mixer_event.call (mixer_call.visit drawable_one),
   mixer_event.call (mixer_call.visit drawable_one),
   mixer_event.call (mixer_call.visit drawable_two),
   mixer_event.render,
   mixer_event.call mixer_call.begin_layer,
   mixer_event.call (mixer_call.visit drawable_two),
   mixer_event.call (mixer_call.visit drawable_two),
   mixer_event.render,
   mixer_event.call mixer_call.begin_layer]

/-- The layer lists handed to the composite by the two renders of `example_events`. -/
def example_events_rendered : List (List (List render_item)) :=
  [[[item_of drawable_one image_transform.ctor video_mode.progressive,
      item_of drawable_two image_transform.ctor video_mode.progressive]],
   [[item_of drawable_two image_transform.ctor video_mode.progressive]]]

/-- Two scoped frames with the default transform, of mode `upper` and of mode `lower`. -/
def upper_frame : basic_frame := ⟨image_transform.ctor, video_mode.upper⟩

def lower_frame : basic_frame := ⟨image_transform.ctor, video_mode.lower⟩

/-! ## Definitions: frame_consumer_device.cpp -/

/-- A completed frame (`safe_ptr<const read_frame>`), identified by a number. -/
abbrev read_frame := Nat

/-- The container `boost::circular_buffer`: its capacity and its elements from `front()`
(index 0, the element inserted longest ago) to `back()`. -/
structure circular_buffer (α : Type) where
  capacity_ : Nat
  items : List α
  deriving DecidableEq

namespace circular_buffer

variable {α : Type}

def capacity (self : circular_buffer α) : Nat := self.capacity_

def size (self : circular_buffer α) : Nat := self.items.length

/-- The member `full()`: `size() == capacity()`. -/
def full (self : circular_buffer α) : Bool := decide (self.size = self.capacity)

/-- The member `empty()`. -/
def empty (self : circular_buffer α) : Bool := decide (self.size = 0)

/-- The member `push_back`: on a full buffer the element at the front is overwritten and the
new element becomes the back (nothing happens when the capacity is 0); otherwise the element is
appended. -/
def push_back (self : circular_buffer α) (item : α) : circular_buffer α :=
  if self.full then
    if self.empty then self else { self with items := self.items.tail ++ [item] }
  else { self with items := self.items ++ [item] }

/-- The member `set_capacity`: the elements beyond the new capacity are dropped from the
back. -/
def set_capacity (self : circular_buffer α) (new_capacity : Nat) : circular_buffer α :=
  { capacity_ := new_capacity, items := self.items.take new_capacity }

/-- The element access `buffer_[buffer_depth - 1]`, the subtraction being made in `size_t`:
a depth of 0 wraps around to the largest index, which lies beyond every buffer.  An index
that is not below `size()` has no defined result: `none`. -/
def at_depth (self : circular_buffer α) (buffer_depth : Nat) : Option α :=
  if buffer_depth = 0 then none else self.items.get? (buffer_depth - 1)

end circular_buffer

/-- Modelled from the spec: the sink capability `frame_consumer` (its header is not among the
sources): `buffer_depth()` and, for `send(frame)`, whether the call raises. -/
structure frame_consumer where
  buffer_depth : Nat
  send_raises : read_frame → Bool

/-- The operation `consumers_[index] = consumer` of `std::map<int, _>`, the map being the
list of its entries in ascending key order. -/
def map_assign {β : Type} (index : Int) (value : β) : List (Int × β) → List (Int × β)
  | [] => [(index, value)]
  | (k, v) :: rest =>
    if index < k then (index, value) :: (k, v) :: rest
    else if index = k then (index, value) :: rest
    else (k, v) :: map_assign index value rest

/-- The operation `erase` of `std::map<int, _>` on the entry with key `index`, if any. -/
def map_erase {β : Type} (index : Int) : List (Int × β) → List (Int × β)
  | [] => []
  | (k, v) :: rest => if k = index then rest else (k, v) :: map_erase index rest

/-- The key order of a `std::map`: strictly ascending keys. -/
def map_ordered {β : Type} (m : List (Int × β)) : Prop :=
  m.Pairwise (fun a b => a.1 < b.1)

/-- The members of `frame_consumer_device::implementation` that `add`, `remove` and `consume`
touch (the clock and the executor only pace and serialise the calls). -/
structure frame_consumer_device where
  buffer_ : circular_buffer read_frame
  consumers_ : List (Int × frame_consumer)

/-- The constructor: an empty buffer of capacity 0 and no sink. -/
def frame_consumer_device.ctor : frame_consumer_device where
  buffer_ := ⟨0, []⟩
  consumers_ := []

/-- The member `add`. -/
def frame_consumer_device.add (self : frame_consumer_device) (index : Int)
    (consumer : frame_consumer) : frame_consumer_device :=
  let buffer :=
    if self.buffer_.capacity < consumer.buffer_depth then
      self.buffer_.set_capacity consumer.buffer_depth
    else self.buffer_
  { buffer_ := buffer, consumers_ := map_assign index consumer self.consumers_ }

/-- The member `remove`. -/
def frame_consumer_device.remove (self : frame_consumer_device) (index : Int) :
    frame_consumer_device :=
  { self with consumers_ := map_erase index self.consumers_ }

/-- One execution of the body of the dispatch loop, as observed from outside: the index of
the sink, the frame handed to `send`, and whether `send` raised. -/
structure send_attempt where
  index : Int
  frame : read_frame
  raised : Bool
  deriving DecidableEq, Repr

/-- The loop `while(it != consumers_.end())` of `consume`: `pending` are the entries from `it`
to the end, `consumers` is the map.  A `send` that raises erases the entry of `it`; the
entries after it are not affected by the erasure.  The result is the map after the loop and
the attempts made, in order; `none` when a buffer access is out of range. -/
def dispatch (buffer : circular_buffer read_frame) :
    List (Int × frame_consumer) → List (Int × frame_consumer) →
      Option (List (Int × frame_consumer) × List send_attempt)
  | [], consumers => some (consumers, [])
  | (index, consumer) :: pending, consumers =>
    match buffer.at_depth consumer.buffer_depth with
    | none => none
    | some frame =>
      if consumer.send_raises frame then
        match dispatch buffer pending (map_erase index consumers) with
        | none => none
        | some (consumers', log) => some (consumers', ⟨index, frame, true⟩ :: log)
      else
        match dispatch buffer pending consumers with
        | none => none
        | some (consumers', log) => some (consumers', ⟨index, frame, false⟩ :: log)

/-- The task queued by `consume`: push the frame, return while the buffer is not full,
otherwise run the dispatch loop.  The result is the state after the tick and the attempts
made during it. -/
def frame_consumer_device.consume (self : frame_consumer_device) (frame : read_frame) :
    Option (frame_consumer_device × List send_attempt) :=
  let buffer := self.buffer_.push_back frame
  if !buffer.full then some ({ self with buffer_ := buffer }, [])
  else
    match dispatch buffer self.consumers_ self.consumers_ with
    | none => none
    | some (consumers, log) => some ({ buffer_ := buffer, consumers_ := consumers }, log)

/-- Successive `consume` calls; the result carries the attempts of each tick, in order. -/
def frame_consumer_device.consume_all (self : frame_consumer_device) :
    List read_frame → Option (frame_consumer_device × List (List send_attempt))
  | [] => some (self, [])
  | frame :: frames =>
    match self.consume frame with
    | none => none
    | some (s, log) =>
      match s.consume_all frames with
      | none => none
      | some (s', logs) => some (s', log :: logs)

/-- The attempt the dispatch loop makes for one map entry, when the buffer access is in
range. -/
def attempt_for (buffer : circular_buffer read_frame) (entry : Int × frame_consumer) :
    Option send_attempt :=
  (buffer.at_depth entry.2.buffer_depth).map
    (fun frame => ⟨entry.1, frame, entry.2.send_raises frame⟩)

/-- Whether `send` raises for this map entry on the frame the loop hands it. -/
def send_fails (buffer : circular_buffer read_frame) (entry : Int × frame_consumer) : Bool :=
  match buffer.at_depth entry.2.buffer_depth with
  | some frame => entry.2.send_raises frame
  | none => false

/-- The frame of the first attempt made on the sink registered at `index`, if any. -/
def sent_to (log : List send_attempt) (index : Int) : Option read_frame :=
  (log.find? (fun a => a.index = index)).map send_attempt.frame

/-- The buffer accesses of a dispatch are in range: every registered sink has a depth between
1 and the number of frames held. -/
def depths_in_range (buffer : circular_buffer read_frame)
    (consumers : List (Int × frame_consumer)) : Prop :=
  ∀ e ∈ consumers, 1 ≤ e.2.buffer_depth ∧ e.2.buffer_depth ≤ buffer.size

/-- A sink that never raises. -/
def healthy_sink (depth : Nat) : frame_consumer := ⟨depth, fun _ => false⟩

/-- A sink whose `send` always raises. -/
def failing_sink (depth : Nat) : frame_consumer := ⟨depth, fun _ => true⟩

/-- A scheduler with a healthy sink at index 0 and a sink whose `send` raises at index 1,
both of depth 1. -/
def example_device : frame_consumer_device :=
  (frame_consumer_device.ctor.add 0 (healthy_sink 1)).add 1 (failing_sink 1)

/-- A scheduler with sinks of depth 1 (index 0) and depth 2 (index 1), after one frame (10)
has been consumed. -/
def example_two_depths : frame_consumer_device :=
  { buffer_ := ⟨2, [10]⟩, consumers_ := [(0, healthy_sink 1), (1, healthy_sink 2)] }

/-- A scheduler whose buffer has capacity 3 and is empty, with one sink of depth 2 at index 0:
a sink of depth 3 was added at index 1 and removed again. -/
def example_capacity_three : frame_consumer_device :=
  ((frame_consumer_device.ctor.add 1 (healthy_sink 3)).add 0 (healthy_sink 2)).remove 1

/-- A call made on the scheduler. -/
inductive device_call where
  | add (index : Int) (consumer : frame_consumer)
  | remove (index : Int)
  | consume (frame : read_frame)

/-- One call applied to the scheduler; `none` when a `consume` has no defined result. -/
def frame_consumer_device.call (self : frame_consumer_device) :
    device_call → Option frame_consumer_device
  | device_call.add index consumer => some (self.add index consumer)
  | device_call.remove index => some (self.remove index)
  | device_call.consume frame => (self.consume frame).map Prod.fst

/-- A sequence of calls applied in order; `none` as soon as one call is undefined. -/
def frame_consumer_device.run (self : frame_consumer_device) :
    List device_call → Option frame_consumer_device
  | [] => some self
  | c :: cs =>
    match self.call c with
    | none => none
    | some s => s.run cs

/-- The largest buffer depth among the sinks passed to `add` in the sequence, 0 if none. -/
def max_depth_added : List device_call → Nat
  | [] => 0
  | device_call.add _ consumer :: cs => max consumer.buffer_depth (max_depth_added cs)
  | _ :: cs => max_depth_added cs

/-- Every sink passed to `add` in the sequence reports a buffer depth of at least 1, as the
sink contract requires. -/
def sinks_have_depth : List device_call → Prop
  | [] => True
  | device_call.add _ consumer :: cs => 1 ≤ consumer.buffer_depth ∧ sinks_have_depth cs
  | _ :: cs => sinks_have_depth cs

/-- The invariant of a scheduler fed with sinks of depth at least 1: the map is key-ordered,
every registered depth lies between 1 and the capacity, and the buffer holds no more frames
than its capacity. -/
def device_inv (s : frame_consumer_device) : Prop :=
  map_ordered s.consumers_ ∧
    (∀ e ∈ s.consumers_, 1 ≤ e.2.buffer_depth ∧ e.2.buffer_depth ≤ s.buffer_.capacity) ∧
    s.buffer_.size ≤ s.buffer_.capacity

/-- Sinks added out of index order, one replaced, one removed, with frames consumed in
between. -/
def example_calls : List device_call :=
  [device_call.add 5 (healthy_sink 2),
   device_call.consume 10,
   device_call.add 1 (failing_sink 1),
   device_call.add 3 (healthy_sink 3),
   device_call.add 5 (healthy_sink 1),
   device_call.remove 3,
   device_call.consume 20]

/-! ## Definitions: video_channel.cpp -/

/-- Modelled from the spec: the enumeration `video_format` (`core/video_format.h` is not among
the sources); `invalid` is the value `set_video_format_desc` tests for. -/
inductive video_format where
  | pal
  | ntsc
  | x720p5000
  | x1080i5000
  | invalid
  deriving DecidableEq, Repr

/-- Modelled from the spec: the frame format descriptor `video_format_desc` (same header):
the format value, frame width and height and frame rate. -/
structure video_format_desc where
  format : video_format
  width : Nat
  height : Nat
  fps : Nat
  deriving DecidableEq, Repr

/-- A call made by `set_video_format_desc` on one of the collaborators of the channel. -/
inductive channel_call where
  | output_set (format_desc : video_format_desc)
  | mixer_set (format_desc : video_format_desc)
  | stage_set (format_desc : video_format_desc)
  | gc
  deriving DecidableEq, Repr

/-- Modelled from the spec: the collaborators `output`, `mixer`, `stage` and `ogl_device`
(their sources are absent) as seen during one `set_video_format_desc` of the channel: for each
call made on them, whether it raises.  A `set_video_format_desc` of a subsystem that returns
has installed the descriptor; one that raises leaves the descriptor held by the subsystem as it
was. -/
structure call_outcomes where
  output_raises : Bool
  mixer_raises : Bool
  stage_raises : Bool
  gc_raises : Bool
  rollback_output_raises : Bool
  rollback_mixer_raises : Bool
  rollback_stage_raises : Bool
  deriving DecidableEq, Repr

/-- The exception that leaves `set_video_format_desc`: the `invalid_argument` of the first
statement, an exception of the `try` block re-raised by `throw;` after the handler has run, or
an exception raised by a call inside the handler. -/
inductive channel_error where
  | invalid_argument
  | raised_in_try (call : channel_call)
  | raised_in_catch (call : channel_call)
  deriving DecidableEq, Repr

/-- The member `format_desc_` of `video_channel::impl`, the descriptors held by `output_`,
`mixer_` and `stage_`, and the calls made on the collaborators so far, in order. -/
structure video_channel where
  format_desc_ : video_format_desc
  output_ : video_format_desc
  mixer_ : video_format_desc
  stage_ : video_format_desc
  calls_ : List channel_call
  deriving DecidableEq, Repr

/-- The constructor: the three subsystems are created with the descriptor of the channel. -/
def video_channel.ctor (format_desc : video_format_desc) : video_channel where
  format_desc_ := format_desc
  output_ := format_desc
  mixer_ := format_desc
  stage_ := format_desc
  calls_ := []

def video_channel.get_video_format_desc (self : video_channel) : video_format_desc :=
  self.format_desc_

/-- The `try` block of `set_video_format_desc`: the state when the block is left and the call
that raised, if one did. -/
def video_channel.try_block (o : call_outcomes) (self : video_channel)
    (format_desc : video_format_desc) : video_channel × Option channel_call :=
  let s := { self with calls_ := self.calls_ ++ [channel_call.output_set format_desc] }
  if o.output_raises then (s, some (channel_call.output_set format_desc))
  else
    let s := { s with output_ := format_desc }
    let s := { s with calls_ := s.calls_ ++ [channel_call.mixer_set format_desc] }
    if o.mixer_raises then (s, some (channel_call.mixer_set format_desc))
    else
      let s := { s with mixer_ := format_desc }
      let s := { s with calls_ := s.calls_ ++ [channel_call.stage_set format_desc] }
      if o.stage_raises then (s, some (channel_call.stage_set format_desc))
      else
        let s := { s with stage_ := format_desc }
        let s := { s with calls_ := s.calls_ ++ [channel_call.gc] }
        if o.gc_raises then (s, some channel_call.gc) else (s, none)

/-- The three calls of the `catch(...)` handler before its `throw;`, made with the member
`format_desc_`: the state when they are left and the call that raised, if one did. -/
def video_channel.catch_block (o : call_outcomes) (self : video_channel) :
    video_channel × Option channel_call :=
  let s := { self with calls_ := self.calls_ ++ [channel_call.output_set self.format_desc_] }
  if o.rollback_output_raises then (s, some (channel_call.output_set self.format_desc_))
  else
    let s := { s with output_ := self.format_desc_ }
    let s := { s with calls_ := s.calls_ ++ [channel_call.mixer_set self.format_desc_] }
    if o.rollback_mixer_raises then (s, some (channel_call.mixer_set self.format_desc_))
    else
      let s := { s with mixer_ := self.format_desc_ }
      let s := { s with calls_ := s.calls_ ++ [channel_call.stage_set self.format_desc_] }
      if o.rollback_stage_raises then (s, some (channel_call.stage_set self.format_desc_))
      else ({ s with stage_ := self.format_desc_ }, none)

/-- The member `set_video_format_desc`: the state when the call is left and the exception
that leaves it, if any. -/
def video_channel.set_video_format_desc (o : call_outcomes) (self : video_channel)
    (format_desc : video_format_desc) : video_channel × Option channel_error :=
  if format_desc.format = video_format.invalid then
    (self, some channel_error.invalid_argument)
  else
    match self.try_block o format_desc with
    | (s, none) => ({ s with format_desc_ := format_desc }, none)
    | (s, some call) =>
      match s.catch_block o with
      | (s', none) => (s', some (channel_error.raised_in_try call))
      | (s', some call') => (s', some (channel_error.raised_in_catch call'))

/-- The descriptors of two formats used to instantiate statements. -/
def desc_pal : video_format_desc := ⟨video_format.pal, 720, 576, 25⟩

def desc_720p50 : video_format_desc := ⟨video_format.x720p5000, 1280, 720, 50⟩

/-- The mixer is forced to fail: every `set_video_format_desc` of the mixer raises, no other
call does. -/
def mixer_forced_to_fail : call_outcomes :=
  ⟨false, true, false, false, false, true, false⟩

/-- The mixer refuses the new descriptor and the output refuses to go back to the old one. -/
def mixer_and_rollback_fail : call_outcomes :=
  ⟨false, true, false, false, true, false, false⟩

/-- No call on a collaborator raises. -/
def no_call_raises : call_outcomes :=
  ⟨false, false, false, false, false, false, false⟩

/-- A descriptor whose format is `invalid`. -/
def desc_invalid : video_format_desc := ⟨video_format.invalid, 0, 0, 0⟩

/-! ## Definitions: image_mixer.cpp, the composite queued by `render` -/

/-- Modelled from the spec: a device-resident buffer of the GPU buffer layer (`device_buffer`,
source absent), as returned by `create_device_buffer(width, height, channels)`; `id` tells
allocations apart. -/
structure device_buffer where
  id : Nat
  width : Nat
  height : Nat
  channels : Nat
  deriving DecidableEq, Repr

/-- An operation issued on the device context or the image kernel by the composite. -/
inductive gpu_op where
  | create_device_buffer (buffer : device_buffer)
  | clear (buffer : device_buffer)
  | yield
  | kernel_draw (target : device_buffer) (item : render_item)
      (local_key layer_key : Option device_buffer)
  | create_host_buffer
  | attach (buffer : device_buffer)
  | begin_read (buffer : device_buffer)
  | flush
  deriving DecidableEq

/-- The members `draw_buffer_`, `local_key_buffer_` and `layer_key_buffer_` of
`image_mixer::implementation` (shared pointers, `none` when null), which live as long as the
mixer, together with the number of buffers the device context has allocated and the
operations issued so far, in order. -/
structure compositor where
  draw_buffer_ : Option device_buffer
  local_key_buffer_ : Option device_buffer
  layer_key_buffer_ : Option device_buffer
  allocated_ : Nat
  ops_ : List gpu_op
  deriving DecidableEq

/-- The members of a freshly constructed mixer: three null pointers. -/
def compositor.ctor : compositor where
  draw_buffer_ := none
  local_key_buffer_ := none
  layer_key_buffer_ := none
  allocated_ := 0
  ops_ := []

/-- Modelled from the spec: `ogl_device::create_device_buffer`, which returns a buffer not
held by anyone else. -/
def compositor.create_device_buffer (self : compositor) (width height channels : Nat) :
    compositor × device_buffer :=
  let buffer : device_buffer := ⟨self.allocated_, width, height, channels⟩
  ({ self with allocated_ := self.allocated_ + 1,
               ops_ := self.ops_ ++ [gpu_op.create_device_buffer buffer] }, buffer)

/-- One operation issued. -/
def compositor.issue (self : compositor) (op : gpu_op) : compositor :=
  { self with ops_ := self.ops_ ++ [op] }

/-- The overload `draw(target, item, local_key, layer_key)`: a `yield` when some texture of
the item is not ready (`ready`), then the kernel draw.  A null `target` has no defined
result: `none`. -/
def compositor.draw_into (ready : Nat → Bool) (self : compositor)
    (target : Option device_buffer) (item : render_item)
    (local_key layer_key : Option device_buffer) : Option compositor :=
  let s := if !(item.textures.all ready) then self.issue gpu_op.yield else self
  match target with
  | none => none
  | some t => some (s.issue (gpu_op.kernel_draw t item local_key layer_key))

/-- The overload `draw(render_item&&)`; `is_key` is `image_transform::get_is_key` (not in
`image_transform.cpp`), `format_desc` the descriptor of the channel. -/
def compositor.draw_item (is_key : image_transform → Bool) (ready : Nat → Bool)
    (format_desc : video_format_desc) (self : compositor) (item : render_item) :
    Option compositor :=
  if is_key item.transform then
    let s :=
      if self.local_key_buffer_.isNone then
        let created := self.create_device_buffer format_desc.width format_desc.height 1
        let s := { created.1 with local_key_buffer_ := some created.2 }
        s.issue (gpu_op.clear created.2)
      else self
    s.draw_into ready s.local_key_buffer_ item none none
  else
    match self.draw_into ready self.draw_buffer_ item self.local_key_buffer_
        self.layer_key_buffer_ with
    | none => none
    | some s => some { s with local_key_buffer_ := none }

/-- The loop over the items of a layer in `draw(layer&&)`. -/
def compositor.draw_items (is_key : image_transform → Bool) (ready : Nat → Bool)
    (format_desc : video_format_desc) (self : compositor) :
    List render_item → Option compositor
  | [] => some self
  | item :: items =>
    match self.draw_item is_key ready format_desc item with
    | none => none
    | some s => s.draw_items is_key ready format_desc items

/-- The overload `draw(layer&&)`: reset of the local key, the loop, the swap. -/
def compositor.draw_layer (is_key : image_transform → Bool) (ready : Nat → Bool)
    (format_desc : video_format_desc) (self : compositor) (layer : List render_item) :
    Option compositor :=
  let s := { self with local_key_buffer_ := none }
  match s.draw_items is_key ready format_desc layer with
  | none => none
  | some s =>
    some { s with local_key_buffer_ := s.layer_key_buffer_,
                  layer_key_buffer_ := s.local_key_buffer_ }

/-- The loop over the layers in `render(layers)`. -/
def compositor.draw_layers (is_key : image_transform → Bool) (ready : Nat → Bool)
    (format_desc : video_format_desc) (self : compositor) :
    List (List render_item) → Option compositor
  | [] => some self
  | layer :: layers =>
    match self.draw_layer is_key ready format_desc layer with
    | none => none
    | some s => s.draw_layers is_key ready format_desc layers

/-- The first two statements of the private overload `render(layers)`: a new draw buffer with
four channels is created, assigned to `draw_buffer_`, and cleared. -/
def compositor.begin_pass (format_desc : video_format_desc) (self : compositor) :
    compositor :=
  let created := self.create_device_buffer format_desc.width format_desc.height 4
  let s := { created.1 with draw_buffer_ := some created.2 }
  s.issue (gpu_op.clear created.2)

/-- The private overload `render(layers)`, the composite of one pass: a new draw buffer,
cleared, the layers drawn in order, then the read-back of the draw buffer. -/
def compositor.render (is_key : image_transform → Bool) (ready : Nat → Bool)
    (format_desc : video_format_desc) (self : compositor)
    (layers : List (List render_item)) : Option compositor :=
  let s := self.begin_pass format_desc
  match s.draw_layers is_key ready format_desc layers with
  | none => none
  | some s =>
    let s := s.issue gpu_op.create_host_buffer
    match s.draw_buffer_ with
    | none => none
    | some d =>
      some (((s.issue (gpu_op.attach d)).issue (gpu_op.begin_read d)).issue gpu_op.flush)

/-- A kernel draw as the properties below look at it: the item, the target, and the two key
inputs. -/
structure kernel_draw_call where
  item : render_item
  target : device_buffer
  local_key : Option device_buffer
  layer_key : Option device_buffer
  deriving DecidableEq

/-- The kernel draws among a sequence of operations, in order. -/
def kernel_draws : List gpu_op → List kernel_draw_call
  | [] => []
  | gpu_op.kernel_draw target item local_key layer_key :: ops =>
    ⟨item, target, local_key, layer_key⟩ :: kernel_draws ops
  | _ :: ops => kernel_draws ops

/-- What the claims observe of a kernel draw: the item, whether the target is the main draw
buffer `d`, whether a local key is supplied, whether a layer key is supplied. -/
def kernel_draw_call.observed (d : device_buffer) (k : kernel_draw_call) :
    render_item × Bool × Bool × Bool :=
  (k.item, decide (k.target = d), k.local_key.isSome, k.layer_key.isSome)

/-- The draws of one layer as the specification words them: a key item goes to the key buffer
with no key input; a fill item goes to the main draw buffer, with a local key exactly when the
item before it in the layer is a key item, and with the layer key when there is one. -/
def spec_layer_draws (is_key : image_transform → Bool) (layer_key : Bool)
    (layer : List render_item) : List (render_item × Bool × Bool × Bool) :=
  List.zipWith
    (fun item (previous_is_key : Bool) =>
      if is_key item.transform then (item, false, false, false)
      else (item, true, previous_is_key, layer_key))
    layer (false :: layer.map (fun item => is_key item.transform))

/-- The draws of the layers of one pass as the specification words them, `layer_key` telling
whether a layer key is there for the first of them: each layer is drawn as
`spec_layer_draws` says, with a layer key exactly when the layer before it ends with a key
item. -/
def spec_pass_draws (is_key : image_transform → Bool) (layer_key : Bool) :
    List (List render_item) → List (render_item × Bool × Bool × Bool)
  | [] => []
  | layer :: layers =>
    spec_layer_draws is_key layer_key layer ++
      spec_pass_draws is_key
        (match layer.getLast? with
          | none => false
          | some item => is_key item.transform) layers

/-- Whether the last item of a layer is a key item (`false` for an empty layer). -/
def ends_with_key (is_key : image_transform → Bool) (layer : List render_item) : Bool :=
  match layer.getLast? with
  | none => false
  | some item => is_key item.transform

/-- A stand-in for `get_is_key` used to instantiate statements: the transforms with gain 0
are the key sources. -/
def example_is_key : image_transform → Bool := fun t => decide (t.gain_ = 0)

/-- A key item and a fill item under `example_is_key`. -/
def example_key_item : render_item :=
  ⟨⟨0, []⟩, [7], image_transform.ctor.set_gain 0, video_mode.progressive, 1⟩

def example_fill_item : render_item :=
  ⟨⟨0, []⟩, [8], image_transform.ctor, video_mode.progressive, 2⟩

/-- The operations of the overload `draw(target, item, local_key, layer_key)`. -/
def draw_ops (ready : Nat → Bool) (target : device_buffer) (item : render_item)
    (local_key layer_key : Option device_buffer) : List gpu_op :=
  (if !(item.textures.all ready) then [gpu_op.yield] else []) ++
    [gpu_op.kernel_draw target item local_key layer_key]

/-- Whether a local key is left after the items of a layer, `previous` telling whether one
was there before them: the last item decides. -/
def key_left_over (is_key : image_transform → Bool) (previous : Bool) :
    List render_item → Bool
  | [] => previous
  | item :: items => key_left_over is_key (is_key item.transform) items

/-- A compositor in the middle of a pass: its draw buffer is buffer 0, with four channels, and
no key buffer is held. -/
def example_compositor : compositor :=
  ⟨some ⟨0, 720, 576, 4⟩, none, none, 1, []⟩

/-- A layer with a run of two key items followed by two fill items. -/
def example_layer : List render_item :=
  [example_key_item, example_key_item, example_fill_item, example_fill_item]

/-! # Theorems -/

/-! ## Theorems: image_transform.cpp -/

/-- C5: composition of transforms is associative on every field (opacity, gain, fill and key
translation and scale, field mode), the scalars being exact rationals. -/
theorem image_transform_mul_assoc (A B C : image_transform) : (A * B) * C = A * (B * C) := by
  obtain ⟨ao, ag, ⟨aft1, aft2⟩, ⟨afs1, afs2⟩, ⟨akt1, akt2⟩, ⟨aks1, aks2⟩, am⟩ := A
  obtain ⟨bo, bg, ⟨bft1, bft2⟩, ⟨bfs1, bfs2⟩, ⟨bkt1, bkt2⟩, ⟨bks1, bks2⟩, bm⟩ := B
  obtain ⟨co, cg, ⟨cft1, cft2⟩, ⟨cfs1, cfs2⟩, ⟨ckt1, ckt2⟩, ⟨cks1, cks2⟩, cm⟩ := C
  show image_transform.mul (image_transform.mul _ _) _ =
    image_transform.mul _ (image_transform.mul _ _)
  cases bm <;> cases cm <;>
    simp [image_transform.mul, image_transform.mul_assign, mul_assoc, mul_add, add_assoc] <;>
    (repeat (first | constructor | ring))

/-- The value of `tween` with the linear easing function at time 0: the scalar fields of the
source (for a source with non-negative opacity and gain). -/
theorem tween_linear_zero (source dest : image_transform) (d : ℚ) (hs : source.clamped) :
    tween 0 source dest d linear_tweener =
      { source with mode_ :=
          if dest.get_mode ≠ video_mode.invalid then dest.get_mode else source.get_mode } := by
  obtain ⟨ho, hg⟩ := hs
  obtain ⟨so, sg, ⟨sft1, sft2⟩, ⟨sfs1, sfs2⟩, ⟨skt1, skt2⟩, ⟨sks1, sks2⟩, sm⟩ := source
  simp only at ho hg
  simp [tween, linear_tweener, image_transform.ctor, image_transform.set_mode,
    image_transform.set_gain, image_transform.set_opacity, image_transform.set_fill_translation,
    image_transform.set_fill_scale, image_transform.set_key_translation,
    image_transform.set_key_scale, image_transform.get_mode, image_transform.get_gain,
    image_transform.get_opacity, image_transform.get_fill_translation,
    image_transform.get_fill_scale, image_transform.get_key_translation,
    image_transform.get_key_scale, ho, hg]

/-- The value of `tween` with the linear easing function at time `d` (progress ratio 1): the
scalar fields of the destination (for a destination with non-negative opacity and gain). -/
theorem tween_linear_duration (source dest : image_transform) (d : ℚ) (hd : 0 < d)
    (hc : dest.clamped) :
    tween d source dest d linear_tweener =
      { dest with mode_ :=
          if dest.get_mode ≠ video_mode.invalid then dest.get_mode else source.get_mode } := by
  obtain ⟨ho, hg⟩ := hc
  obtain ⟨dop, dg, ⟨dft1, dft2⟩, ⟨dfs1, dfs2⟩, ⟨dkt1, dkt2⟩, ⟨dks1, dks2⟩, dm⟩ := dest
  have hd0 : d ≠ 0 := ne_of_gt hd
  simp only at ho hg
  simp [tween, linear_tweener, image_transform.ctor, image_transform.set_mode,
    image_transform.set_gain, image_transform.set_opacity, image_transform.set_fill_translation,
    image_transform.set_fill_scale, image_transform.set_key_translation,
    image_transform.set_key_scale, image_transform.get_mode, image_transform.get_gain,
    image_transform.get_opacity, image_transform.get_fill_translation,
    image_transform.get_fill_scale, image_transform.get_key_translation,
    image_transform.get_key_scale, ho, hg, hd0]

theorem mul_clamped (a b : image_transform) (ha : a.clamped) (hb : b.clamped) :
    (a * b).clamped := by
  obtain ⟨ha1, ha2⟩ := ha
  obtain ⟨hb1, hb2⟩ := hb
  show (image_transform.mul a b).clamped
  unfold image_transform.mul image_transform.mul_assign image_transform.clamped
  split <;> exact ⟨mul_nonneg ha1 hb1, mul_nonneg ha2 hb2⟩

theorem tween_clamped (time : ℚ) (source dest : image_transform) (duration : ℚ)
    (tweener : tweener_t) : (tween time source dest duration tweener).clamped := by
  simp [tween, image_transform.clamped, image_transform.set_key_scale,
    image_transform.set_key_translation, image_transform.set_fill_scale,
    image_transform.set_fill_translation, image_transform.set_opacity,
    image_transform.set_gain, image_transform.set_mode]

/-- Over exact rationals, where no value is NaN or infinite: every transform obtained from the
default constructor by setters, compositions and `tween` calls with arbitrary easing
functions has opacity and gain of at least 0.  This is the invariant `clamped` that the
statements on `tween` assume of their arguments. -/
theorem clamped_over_rationals (e : transform_expr) :
    (0 ≤ e.eval.get_opacity ∧ 0 ≤ e.eval.get_gain) ∧
      (∀ (t : image_transform) (v : ℚ), (t.set_opacity v).get_opacity = max v 0) ∧
      (∀ (t : image_transform) (v : ℚ), (t.set_gain v).get_gain = max 0 v) := by
  refine ⟨?_, fun _ _ => rfl, fun _ _ => rfl⟩
  show e.eval.clamped
  induction e with
  | ctor => norm_num [transform_expr.eval, image_transform.clamped, image_transform.ctor]
  | set_opacity e v ih =>
    exact ⟨le_max_right _ _, ih.2⟩
  | set_gain e v ih =>
    exact ⟨ih.1, le_max_left _ _⟩
  | set_fill_translation e x y ih => exact ih
  | set_fill_scale e x y ih => exact ih
  | set_key_translation e x y ih => exact ih
  | set_key_scale e x y ih => exact ih
  | set_mode e m ih => exact ih
  | mul a b iha ihb => exact mul_clamped _ _ iha ihb
  | tween time a b d tw _ _ => exact tween_clamped _ _ _ _ _

/-- C21, evaluation: `set_opacity` called with NaN stores NaN, `std::max(value, 0.0)` being
`(value < 0.0) ? 0.0 : value`, so the stored opacity is not at least 0; `set_gain` has the
arguments the other way round, stores 0 for NaN and a value of at least 0 for every argument.
On numbers both setters store the larger of the argument and 0. -/
theorem set_opacity_stores_nan :
    set_opacity_double double.nan = double.nan ∧
      (set_opacity_double double.nan).nonneg = false ∧
      set_gain_double double.nan = double.num 0 ∧
      (∀ v : double, (set_gain_double v).nonneg = true) ∧
      (∀ q : ℚ, set_opacity_double (double.num q) = double.num (max q 0)) ∧
      (∀ q : ℚ, set_gain_double (double.num q) = double.num (max 0 q)) := by
  refine ⟨rfl, rfl, rfl, ?_, ?_, ?_⟩
  · intro v
    cases v with
    | nan => simp [set_gain_double, std_max, double.lt, double.nonneg]
    | num q =>
      by_cases h : (0 : ℚ) < q
      · simp [set_gain_double, std_max, double.lt, double.nonneg, h, le_of_lt h]
      · simp [set_gain_double, std_max, double.lt, double.nonneg, h]
  · intro q
    by_cases h : q < 0
    · simp [set_opacity_double, std_max, double.lt, h, max_eq_right (le_of_lt h)]
    · simp [set_opacity_double, std_max, double.lt, h, max_eq_left (not_lt.mp h)]
  · intro q
    by_cases h : (0 : ℚ) < q
    · simp [set_gain_double, std_max, double.lt, h, max_eq_right (le_of_lt h)]
    · simp [set_gain_double, std_max, double.lt, h, max_eq_left (not_lt.mp h)]

/-! ## Theorems: image_mixer.cpp -/

theorem back_concat {α : Type} (l : List α) (x : α) : back (l ++ [x]) = some x := by
  simp [back]

theorem back_append_of_ne_nil {α : Type} (l r : List α) (h : l ≠ []) :
    ∃ x, back (l ++ r) = some x := by
  have hne : l ++ r ≠ [] := by simp [h]
  exact ⟨(l ++ r).getLast hne, by simp [back, List.getLast?_eq_getLast _ hne]⟩

theorem pop_back_concat {α : Type} (l : List α) (x : α) : pop_back (l ++ [x]) = some l := by
  cases l with
  | nil => rfl
  | cons a t =>
    show some ((a :: t) ++ [x]).dropLast = some (a :: t)
    rw [List.dropLast_concat]

theorem pop_back_singleton_of_length {α : Type} (l : List α) (h : l.length = 1) :
    pop_back l = some [] := by
  match l, h with
  | [x], _ => rfl

/-- A `visit` with a layer open and non-empty stacks returns, and touches neither stack. -/
theorem visit_keeps_stacks (item_eq : render_item → render_item → Bool) (s : image_mixer)
    (frame : write_frame) (hl : s.layers_ ≠ []) (ht : s.transform_stack_ ≠ [])
    (hm : s.mode_stack_ ≠ []) :
    ∃ s', s.visit item_eq frame = some s' ∧ s'.transform_stack_ = s.transform_stack_ ∧
      s'.mode_stack_ = s.mode_stack_ ∧ s'.layers_ ≠ [] := by
  unfold image_mixer.visit
  split
  · exact ⟨s, rfl, rfl, rfl, hl⟩
  · have h1 : back s.transform_stack_ = some (s.transform_stack_.getLast ht) := by
      simp [back, List.getLast?_eq_getLast _ ht]
    have h2 : back s.mode_stack_ = some (s.mode_stack_.getLast hm) := by
      simp [back, List.getLast?_eq_getLast _ hm]
    have h3 : back s.layers_ = some (s.layers_.getLast hl) := by
      simp [back, List.getLast?_eq_getLast _ hl]
    rw [h1, h2, h3]
    simp only
    split
    · exact ⟨s, rfl, rfl, rfl, hl⟩
    · exact ⟨_, rfl, rfl, rfl, by simp⟩

theorem open_begins_append_left (p q : List mixer_call) :
    ∀ (k k' : Nat), open_begins k (p ++ q) = some k' → ∃ kp, open_begins k p = some kp := by
  induction p with
  | nil => intro k k' _; exact ⟨k, rfl⟩
  | cons c cs ih =>
    intro k k' h
    cases c with
    | begin f => exact ih (k + 1) k' h
    | visit f => exact ih k k' h
    | end_ =>
      simp only [List.cons_append, open_begins] at h ⊢
      by_cases hk : k = 0
      · simp [hk] at h
      · rw [if_neg hk] at h ⊢
        exact ih (k - 1) k' h
    | begin_layer => exact ih k k' h
    | end_layer => exact ih k k' h

theorem visits_have_layer_append_left (p q : List mixer_call) :
    ∀ (b : Bool), visits_have_layer b (p ++ q) = true → visits_have_layer b p = true := by
  induction p with
  | nil => intro b _; rfl
  | cons c cs ih =>
    intro b h
    cases c with
    | begin f => exact ih b h
    | visit f =>
      simp only [List.cons_append, visits_have_layer, Bool.and_eq_true] at h ⊢
      exact ⟨h.1, ih b h.2⟩
    | end_ => exact ih b h
    | begin_layer => exact ih true h
    | end_layer => exact ih b h

/-- Stack discipline: above the untouched bases `T0` and `M0` both stacks carry as many
entries as there are open `begin` calls, and every call of the sequence is defined. -/
theorem run_stack_discipline (item_eq : render_item → render_item → Bool)
    (T0 : List image_transform) (M0 : List video_mode) (hT : T0 ≠ []) (hM : M0 ≠ []) :
    ∀ (ops : List mixer_call) (s : image_mixer) (xt : List image_transform)
      (xm : List video_mode) (k k' : Nat),
      s.transform_stack_ = T0 ++ xt → s.mode_stack_ = M0 ++ xm → xt.length = k →
      xm.length = k → open_begins k ops = some k' →
      visits_have_layer (decide (s.layers_ ≠ [])) ops = true →
      ∃ s' xt' xm', s.run item_eq ops = some s' ∧ s'.transform_stack_ = T0 ++ xt' ∧
        s'.mode_stack_ = M0 ++ xm' ∧ xt'.length = k' ∧ xm'.length = k' := by
  intro ops
  induction ops with
  | nil =>
    intro s xt xm k k' ht hm hxt hxm hk _
    simp only [open_begins, Option.some.injEq] at hk
    subst hk
    exact ⟨s, xt, xm, rfl, ht, hm, hxt, hxm⟩
  | cons c cs ih =>
    intro s xt xm k k' ht hm hxt hxm hk hv
    cases c with
    | begin f =>
      obtain ⟨t, hbt⟩ := back_append_of_ne_nil T0 xt hT
      obtain ⟨m, hbm⟩ := back_append_of_ne_nil M0 xm hM
      have hcall : s.call item_eq (mixer_call.begin f) = some
          { s with
            transform_stack_ := s.transform_stack_ ++ [t * f.get_image_transform]
            mode_stack_ := s.mode_stack_ ++
              [if f.get_mode = video_mode.progressive then m else f.get_mode] } := by
        simp only [image_mixer.call, image_mixer.begin, ht, hm, hbt, hbm]
      simp only [image_mixer.run, hcall]
      exact ih _ (xt ++ [t * f.get_image_transform])
        (xm ++ [if f.get_mode = video_mode.progressive then m else f.get_mode]) (k + 1) k'
        (by simp [ht]) (by simp [hm]) (by simp [hxt]) (by simp [hxm]) hk hv
    | visit f =>
      simp only [visits_have_layer, Bool.and_eq_true, decide_eq_true_eq] at hv
      obtain ⟨s1, h1, h2, h3, h4⟩ := visit_keeps_stacks item_eq s f hv.1
        (by simp [ht, hT]) (by simp [hm, hM])
      have hcall : s.call item_eq (mixer_call.visit f) = some s1 := h1
      simp only [image_mixer.run, hcall]
      exact ih s1 xt xm k k' (h2.trans ht) (h3.trans hm) hxt hxm hk
        (by simpa [h4, hv.1] using hv.2)
    | end_ =>
      simp only [open_begins] at hk
      by_cases hk0 : k = 0
      · simp [hk0] at hk
      · rw [if_neg hk0] at hk
        have hxt_ne : xt ≠ [] := by
          intro h; apply hk0; rw [← hxt, h]; rfl
        have hxm_ne : xm ≠ [] := by
          intro h; apply hk0; rw [← hxm, h]; rfl
        obtain ⟨xt0, x, rfl⟩ := (List.eq_nil_or_concat xt).resolve_left hxt_ne
        obtain ⟨xm0, y, rfl⟩ := (List.eq_nil_or_concat xm).resolve_left hxm_ne
        have hcall : s.call item_eq mixer_call.end_ = some
            { s with transform_stack_ := T0 ++ xt0, mode_stack_ := M0 ++ xm0 } := by
          simp only [image_mixer.call, image_mixer.end_, ht, hm, List.concat_eq_append,
            ← List.append_assoc, pop_back_concat]
        simp only [image_mixer.run, hcall]
        exact ih _ xt0 xm0 (k - 1) k' rfl rfl
          (by simp at hxt; omega) (by simp at hxm; omega) hk hv
    | begin_layer =>
      have hcall : s.call item_eq mixer_call.begin_layer = some s.begin_layer := rfl
      simp only [image_mixer.run, hcall]
      exact ih _ xt xm k k' ht hm hxt hxm hk
        (by simpa [image_mixer.begin_layer, visits_have_layer] using hv)
    | end_layer =>
      have hcall : s.call item_eq mixer_call.end_layer = some s.end_layer := rfl
      simp only [image_mixer.run, hcall]
      exact ih _ xt xm k k' ht hm hxt hxm hk hv

/-- C9 (amended): `end` makes no check.  For every mixer state whose two stacks have depth 1
it returns normally and leaves both stacks empty (depth 0), the layers untouched; keeping the
depth at 1 or more is left to the caller. -/
theorem end_at_depth_one_empties_stacks (s : image_mixer)
    (ht : s.transform_stack_.length = 1) (hm : s.mode_stack_.length = 1) :
    s.end_ = some { s with transform_stack_ := [], mode_stack_ := [] } := by
  simp only [image_mixer.end_, pop_back_singleton_of_length _ ht,
    pop_back_singleton_of_length _ hm]

/-- C9, witness: the freshly constructed mixer. -/
theorem end_at_depth_one_empties_stacks_witness :
    image_mixer.ctor.end_ =
      some { image_mixer.ctor with transform_stack_ := [], mode_stack_ := [] } :=
  end_at_depth_one_empties_stacks image_mixer.ctor rfl rfl

/-- C9, counterexample: on the freshly constructed mixer (both stacks of depth 1) `end`
returns a state, and in it both stacks have depth 0: the call was not rejected and the stacks
were not left unchanged. -/
theorem end_unmatched_counterexample :
    image_mixer.ctor.transform_stack_.length = 1 ∧ image_mixer.ctor.mode_stack_.length = 1 ∧
      image_mixer.ctor.end_ = some ⟨[], [], []⟩ ∧
      (Option.map (fun s => (s.transform_stack_.length, s.mode_stack_.length))
        image_mixer.ctor.end_) = some (0, 0) :=
  ⟨rfl, rfl, rfl, rfl⟩

/-- C10: from a mixer state whose two stacks have depth `1 + n` (`n` begins open), a
well-nested sequence of `begin`/`end` calls interleaved with `visit` (each with a layer open),
`begin_layer` and `end_layer` runs to completion; after every leading part of it both stacks
have depth 1 plus the number of open begins, and after the whole sequence both stacks are
what they were before it. -/
theorem balanced_calls_restore_stacks (item_eq : render_item → render_item → Bool)
    (s : image_mixer) (ops : List mixer_call) (n : Nat)
    (ht : s.transform_stack_.length = 1 + n) (hm : s.mode_stack_.length = 1 + n)
    (hbal : well_nested ops)
    (hvis : visits_have_layer (decide (s.layers_ ≠ [])) ops = true) :
    (∀ p, p <+: ops → ∃ k s', open_begins 0 p = some k ∧ s.run item_eq p = some s' ∧
        s'.transform_stack_.length = 1 + (n + k) ∧ s'.mode_stack_.length = 1 + (n + k)) ∧
      (∃ s', s.run item_eq ops = some s' ∧ s'.transform_stack_ = s.transform_stack_ ∧
        s'.mode_stack_ = s.mode_stack_) := by
  have hT : s.transform_stack_ ≠ [] := by
    intro h; rw [h] at ht; simp at ht; omega
  have hM : s.mode_stack_ ≠ [] := by
    intro h; rw [h] at hm; simp at hm; omega
  constructor
  · rintro p ⟨q, rfl⟩
    obtain ⟨k, hk⟩ := open_begins_append_left p q 0 0 hbal
    have hv := visits_have_layer_append_left p q _ hvis
    obtain ⟨s1, xt, xm, hrun, h1, h2, h3, h4⟩ :=
      run_stack_discipline item_eq s.transform_stack_ s.mode_stack_ hT hM p s [] [] 0 k
        (by simp) (by simp) rfl rfl hk hv
    refine ⟨k, s1, hk, hrun, ?_, ?_⟩
    · rw [h1, List.length_append, ht, h3]; omega
    · rw [h2, List.length_append, hm, h4]; omega
  · obtain ⟨s1, xt, xm, hrun, h1, h2, h3, h4⟩ :=
      run_stack_discipline item_eq s.transform_stack_ s.mode_stack_ hT hM ops s [] [] 0 0
        (by simp) (by simp) rfl rfl hbal hvis
    have hxt : xt = [] := List.length_eq_zero.mp h3
    have hxm : xm = [] := List.length_eq_zero.mp h4
    subst hxt hxm
    exact ⟨s1, hrun, by simpa using h1, by simpa using h2⟩

/-- C10, witness: the freshly constructed mixer (depth 1, no begin open) and `example_pass`. -/
theorem balanced_calls_restore_stacks_witness :
    well_nested example_pass ∧
      visits_have_layer (decide (image_mixer.ctor.layers_ ≠ [])) example_pass = true ∧
      (∀ p, p <+: example_pass → ∃ k s', open_begins 0 p = some k ∧
        image_mixer.ctor.run render_item.spec_eq p = some s' ∧
        s'.transform_stack_.length = 1 + (0 + k) ∧ s'.mode_stack_.length = 1 + (0 + k)) ∧
      (∃ s', image_mixer.ctor.run render_item.spec_eq example_pass = some s' ∧
        s'.transform_stack_ = image_mixer.ctor.transform_stack_ ∧
        s'.mode_stack_ = image_mixer.ctor.mode_stack_) :=
  ⟨by decide, by decide,
    balanced_calls_restore_stacks render_item.spec_eq image_mixer.ctor example_pass 0 rfl rfl
      (by decide) (by decide)⟩

/-- The value of `visit` when a layer is open, both stacks have a top and the mode stack holds
no interlace conflict. -/
theorem visit_no_conflict (item_eq : render_item → render_item → Bool) (s : image_mixer)
    (frame : write_frame) (ls : List (List render_item)) (layer : List render_item)
    (ts : List image_transform) (t : image_transform) (ms : List video_mode) (m : video_mode)
    (hl : s.layers_ = ls ++ [layer]) (ht : s.transform_stack_ = ts ++ [t])
    (hm : s.mode_stack_ = ms ++ [m])
    (hno : ¬ (video_mode.upper ∈ s.mode_stack_ ∧ video_mode.lower ∈ s.mode_stack_)) :
    s.visit item_eq frame =
      some (if layer.any (fun x => item_eq x (item_of frame t m)) then s
        else { s with layers_ := ls ++ [layer ++ [item_of frame t m]] }) := by
  unfold image_mixer.visit
  rw [if_neg hno, hl, ht, hm, back_concat, back_concat, back_concat]
  simp only [List.dropLast_concat, item_of]
  split <;> rfl

/-- C12: on a mixer state with a layer open (`layer`, the last one), stack tops `t` and `m`
and no interlace conflict, `visit` builds the item from the pixel layout, the textures, `t`,
`m` and the tag; when an equal item is already in `layer` the state is unchanged, otherwise
the item is appended at the end of `layer`, the other layers and both stacks staying as they
are.  Hence two visits into an empty layer leave it with one item when the two items are
equal and with both items, in visit order, when they are not. -/
theorem visit_appends_unless_present (item_eq : render_item → render_item → Bool)
    (s : image_mixer) (frame : write_frame) (ls : List (List render_item))
    (layer : List render_item) (ts : List image_transform) (t : image_transform)
    (ms : List video_mode) (m : video_mode)
    (hl : s.layers_ = ls ++ [layer]) (ht : s.transform_stack_ = ts ++ [t])
    (hm : s.mode_stack_ = ms ++ [m])
    (hno : ¬ (video_mode.upper ∈ s.mode_stack_ ∧ video_mode.lower ∈ s.mode_stack_)) :
    (layer.any (fun x => item_eq x (item_of frame t m)) = true →
        s.visit item_eq frame = some s) ∧
      (layer.any (fun x => item_eq x (item_of frame t m)) = false →
        s.visit item_eq frame = some
          { transform_stack_ := s.transform_stack_, mode_stack_ := s.mode_stack_,
            layers_ := ls ++ [layer ++ [item_of frame t m]] }) ∧
      (layer = [] → ∀ frame2 : write_frame,
        (s.visit item_eq frame).bind (fun s1 => s1.visit item_eq frame2) = some
          { transform_stack_ := s.transform_stack_, mode_stack_ := s.mode_stack_,
            layers_ := ls ++ [if item_eq (item_of frame t m) (item_of frame2 t m) = true
              then [item_of frame t m] else [item_of frame t m, item_of frame2 t m]] }) := by
  have hv := visit_no_conflict item_eq s frame ls layer ts t ms m hl ht hm hno
  refine ⟨fun h => by rw [hv, if_pos h], fun h => by rw [hv]; simp [h], ?_⟩
  intro hnil frame2
  subst hnil
  rw [hv]
  simp only [List.any_nil, Bool.false_eq_true, if_false, List.nil_append, Option.some_bind]
  rw [visit_no_conflict item_eq
    ⟨s.transform_stack_, s.mode_stack_, ls ++ [[item_of frame t m]]⟩ frame2 ls
    [item_of frame t m] ts t ms m rfl ht hm hno]
  by_cases h : item_eq (item_of frame t m) (item_of frame2 t m) = true
  · simp [h, ht, hm]
  · simp [h]

/-- C12, witness: the mixer after `begin_layer` on a fresh mixer, and `drawable_one`. -/
theorem visit_appends_unless_present_witness :
    (([] : List render_item).any (fun x => render_item.spec_eq x
          (item_of drawable_one image_transform.ctor video_mode.progressive)) = true →
        image_mixer.ctor.begin_layer.visit render_item.spec_eq drawable_one =
          some image_mixer.ctor.begin_layer) ∧
      (([] : List render_item).any (fun x => render_item.spec_eq x
          (item_of drawable_one image_transform.ctor video_mode.progressive)) = false →
        image_mixer.ctor.begin_layer.visit render_item.spec_eq drawable_one = some
          { transform_stack_ := image_mixer.ctor.begin_layer.transform_stack_,
            mode_stack_ := image_mixer.ctor.begin_layer.mode_stack_,
            layers_ := [] ++ [[] ++
              [item_of drawable_one image_transform.ctor video_mode.progressive]] }) ∧
      (([] : List render_item) = [] → ∀ frame2 : write_frame,
        (image_mixer.ctor.begin_layer.visit render_item.spec_eq drawable_one).bind
          (fun s1 => s1.visit render_item.spec_eq frame2) = some
          { transform_stack_ := image_mixer.ctor.begin_layer.transform_stack_,
            mode_stack_ := image_mixer.ctor.begin_layer.mode_stack_,
            layers_ := [] ++ [if render_item.spec_eq
                (item_of drawable_one image_transform.ctor video_mode.progressive)
                (item_of frame2 image_transform.ctor video_mode.progressive) = true
              then [item_of drawable_one image_transform.ctor video_mode.progressive]
              else [item_of drawable_one image_transform.ctor video_mode.progressive,
                item_of frame2 image_transform.ctor video_mode.progressive]] }) :=
  visit_appends_unless_present render_item.spec_eq image_mixer.ctor.begin_layer drawable_one
    [] [] [] image_transform.ctor [] video_mode.progressive rfl rfl rfl
    (by simp [image_mixer.begin_layer, image_mixer.ctor])

theorem visit_of_conflict (item_eq : render_item → render_item → Bool)
    (s : image_mixer) (frame : write_frame)
    (hupper : video_mode.upper ∈ s.mode_stack_) (hlower : video_mode.lower ∈ s.mode_stack_) :
    s.visit item_eq frame = some s := by
  unfold image_mixer.visit
  rw [if_pos ⟨hupper, hlower⟩]

theorem begin_of_tops (s : image_mixer) (f : basic_frame) (ts : List image_transform)
    (t : image_transform) (ms : List video_mode) (m : video_mode)
    (ht : s.transform_stack_ = ts ++ [t]) (hm : s.mode_stack_ = ms ++ [m]) :
    s.begin f = some
      { transform_stack_ := (ts ++ [t]) ++ [t * f.get_image_transform],
        mode_stack_ := (ms ++ [m]) ++
          [if f.get_mode = video_mode.progressive then m else f.get_mode],
        layers_ := s.layers_ } := by
  unfold image_mixer.begin
  rw [ht, hm, back_concat, back_concat]

theorem end_of_tops (s : image_mixer) (ts : List image_transform) (t : image_transform)
    (ms : List video_mode) (m : video_mode)
    (ht : s.transform_stack_ = ts ++ [t]) (hm : s.mode_stack_ = ms ++ [m]) :
    s.end_ = some { transform_stack_ := ts, mode_stack_ := ms, layers_ := s.layers_ } := by
  unfold image_mixer.end_
  rw [ht, hm, pop_back_concat, pop_back_concat]

/-- C13: on every mixer state whose mode stack holds `upper` somewhere and `lower` somewhere,
with or without a layer open, `visit` returns the state it was given, whatever the drawable:
the layer list and both stacks are as before the call. -/
theorem visit_discards_on_conflict (item_eq : render_item → render_item → Bool)
    (s : image_mixer) (frame : write_frame)
    (hupper : video_mode.upper ∈ s.mode_stack_) (hlower : video_mode.lower ∈ s.mode_stack_) :
    s.visit item_eq frame = some s ∧
      (∀ s', s.visit item_eq frame = some s' →
        s'.layers_ = s.layers_ ∧ s'.transform_stack_ = s.transform_stack_ ∧
          s'.mode_stack_ = s.mode_stack_) := by
  have h := visit_of_conflict item_eq s frame hupper hlower
  refine ⟨h, fun s' hs' => ?_⟩
  rw [h] at hs'
  cases hs'
  exact ⟨rfl, rfl, rfl⟩

/-- C13, witness: a mixer with the mode stack `progressive`, `upper`, `lower` and no layer
open. -/
theorem visit_discards_on_conflict_witness :
    image_mixer.visit render_item.spec_eq
        ⟨[image_transform.ctor, image_transform.ctor, image_transform.ctor],
          [video_mode.progressive, video_mode.upper, video_mode.lower], []⟩ drawable_one =
      some ⟨[image_transform.ctor, image_transform.ctor, image_transform.ctor],
          [video_mode.progressive, video_mode.upper, video_mode.lower], []⟩ :=
  (visit_discards_on_conflict render_item.spec_eq
    ⟨[image_transform.ctor, image_transform.ctor, image_transform.ctor],
      [video_mode.progressive, video_mode.upper, video_mode.lower], []⟩ drawable_one
    (by simp) (by simp)).1

/-- C20: `render` hands the composite the accumulated layer list as it is and leaves the
layer list of the mixer empty and both stacks unchanged; `begin_layer` appends one empty layer
and changes nothing else; `end_layer` changes nothing. -/
theorem render_takes_the_layers (s : image_mixer) :
    s.render.2 = s.layers_ ∧ s.render.1.layers_ = [] ∧
      s.render.1.transform_stack_ = s.transform_stack_ ∧
      s.render.1.mode_stack_ = s.mode_stack_ ∧
      s.render.1.render.2 = [] ∧
      s.begin_layer = { s with layers_ := s.layers_ ++ [[]] } ∧
      s.end_layer = s :=
  ⟨rfl, rfl, rfl, rfl, rfl, rfl, rfl⟩

theorem visit_keeps_duplicate_free (item_eq : render_item → render_item → Bool)
    (s s' : image_mixer) (frame : write_frame)
    (hinv : ∀ l ∈ s.layers_, duplicate_free item_eq l)
    (hv : s.visit item_eq frame = some s') :
    ∀ l ∈ s'.layers_, duplicate_free item_eq l := by
  unfold image_mixer.visit at hv
  split at hv
  · cases hv; exact hinv
  · split at hv
    · next t m layer _ _ hlayer =>
      simp only at hv
      split at hv
      · cases hv; exact hinv
      · next hany =>
        cases hv
        intro l hmem
        simp only [List.mem_append, List.mem_singleton] at hmem
        rcases hmem with hmem | rfl
        · exact hinv l (List.mem_of_mem_dropLast hmem)
        · have hlayer_mem : layer ∈ s.layers_ := List.mem_of_getLast?_eq_some hlayer
          have hfalse : List.any layer (fun x => item_eq x
              ⟨frame.get_pixel_format_desc, frame.get_textures, t, m, frame.tag⟩) = false := by
            simpa using hany
          rw [List.any_eq_false] at hfalse
          unfold duplicate_free
          rw [List.pairwise_append]
          refine ⟨hinv layer hlayer_mem, List.pairwise_singleton _ _, ?_⟩
          intro x hx y hy
          simp only [List.mem_singleton] at hy
          subst hy
          simpa using hfalse x hx
    · exact absurd hv (by simp)

theorem call_keeps_duplicate_free (item_eq : render_item → render_item → Bool)
    (s s' : image_mixer) (c : mixer_call)
    (hinv : ∀ l ∈ s.layers_, duplicate_free item_eq l)
    (hc : s.call item_eq c = some s') :
    ∀ l ∈ s'.layers_, duplicate_free item_eq l := by
  cases c with
  | begin f =>
    simp only [image_mixer.call, image_mixer.begin] at hc
    split at hc
    · cases hc; exact hinv
    · exact absurd hc (by simp)
  | visit f => exact visit_keeps_duplicate_free item_eq s s' f hinv hc
  | end_ =>
    simp only [image_mixer.call, image_mixer.end_] at hc
    split at hc
    · exact absurd hc (by simp)
    · split at hc
      · exact absurd hc (by simp)
      · cases hc; exact hinv
  | begin_layer =>
    simp only [image_mixer.call, image_mixer.begin_layer, Option.some.injEq] at hc
    subst hc
    intro l hmem
    simp only [List.mem_append, List.mem_singleton] at hmem
    rcases hmem with hmem | rfl
    · exact hinv l hmem
    · exact List.Pairwise.nil
  | end_layer =>
    simp only [image_mixer.call, image_mixer.end_layer, Option.some.injEq] at hc
    subst hc
    exact hinv

theorem run_events_keeps_duplicate_free (item_eq : render_item → render_item → Bool) :
    ∀ (events : List mixer_event) (s s' : image_mixer)
      (rendered : List (List (List render_item))),
      (∀ l ∈ s.layers_, duplicate_free item_eq l) →
      s.run_events item_eq events = some (s', rendered) →
      (∀ l ∈ s'.layers_, duplicate_free item_eq l) ∧
        (∀ layers ∈ rendered, ∀ l ∈ layers, duplicate_free item_eq l) := by
  intro events
  induction events with
  | nil =>
    intro s s' rendered hinv hrun
    simp only [image_mixer.run_events, Option.some.injEq, Prod.mk.injEq] at hrun
    obtain ⟨rfl, rfl⟩ := hrun
    exact ⟨hinv, by simp⟩
  | cons e es ih =>
    intro s s' rendered hinv hrun
    cases e with
    | call c =>
      simp only [image_mixer.run_events] at hrun
      split at hrun
      · exact absurd hrun (by simp)
      · next s1 hc =>
        exact ih s1 s' rendered (call_keeps_duplicate_free item_eq s s1 c hinv hc) hrun
    | render =>
      simp only [image_mixer.run_events] at hrun
      split at hrun
      · exact absurd hrun (by simp)
      · next s2 rendered2 hrest =>
        simp only [Option.some.injEq, Prod.mk.injEq] at hrun
        obtain ⟨rfl, rfl⟩ := hrun
        obtain ⟨h1, h2⟩ := ih s.render.1 s2 rendered2
          (by simp [image_mixer.render]) hrest
        refine ⟨h1, ?_⟩
        intro layers hmem
        simp only [List.mem_cons] at hmem
        rcases hmem with rfl | hmem
        · exact hinv
        · exact h2 layers hmem

theorem concat_of_length_succ {α : Type} (l : List α) (k : Nat) (h : l.length = k + 1) :
    ∃ (init : List α) (x : α), l = init ++ [x] ∧ init.length = k := by
  have hne : l ≠ [] := by
    intro h0; rw [h0] at h; simp at h
  obtain ⟨init, x, hl⟩ := (List.eq_nil_or_concat l).resolve_left hne
  rw [List.concat_eq_append] at hl
  refine ⟨init, x, hl, ?_⟩
  rw [hl] at h
  simpa using h

/-- A well-formed sequence of calls and renders runs to its end on a mixer whose stacks have
depth `k + 1` and which has a layer open when `has_layer` says so. -/
theorem run_events_defined (item_eq : render_item → render_item → Bool) :
    ∀ (events : List mixer_event) (s : image_mixer) (k : Nat) (has_layer : Bool),
      s.transform_stack_.length = k + 1 → s.mode_stack_.length = k + 1 →
      (has_layer = true → s.layers_ ≠ []) →
      events_well_formed k has_layer events = true →
      ∃ r, s.run_events item_eq events = some r := by
  intro events
  induction events with
  | nil => intro s k b _ _ _ _; exact ⟨(s, []), rfl⟩
  | cons e es ih =>
    intro s k b ht hm hl hwf
    obtain ⟨ts, t, hts, htl⟩ := concat_of_length_succ _ k ht
    obtain ⟨ms, m, hms, hml⟩ := concat_of_length_succ _ k hm
    cases e with
    | render =>
      simp only [events_well_formed] at hwf
      obtain ⟨r, hr⟩ := ih s.render.1 k false ht hm (by simp) hwf
      exact ⟨(r.1, s.render.2 :: r.2), by simp only [image_mixer.run_events, hr]⟩
    | call c =>
      cases c with
      | begin f =>
        simp only [events_well_formed] at hwf
        have h0 := begin_of_tops s f ts t ms m hts hms
        obtain ⟨r, hr⟩ := ih
          ⟨(ts ++ [t]) ++ [t * f.get_image_transform],
            (ms ++ [m]) ++ [if f.get_mode = video_mode.progressive then m else f.get_mode],
            s.layers_⟩ (k + 1) b
          (show ((ts ++ [t]) ++ [t * f.get_image_transform]).length = k + 1 + 1 by
            simp [htl])
          (show ((ms ++ [m]) ++
              [if f.get_mode = video_mode.progressive then m else f.get_mode]).length =
              k + 1 + 1 by simp [hml])
          hl hwf
        exact ⟨r, by simp only [image_mixer.run_events, image_mixer.call, h0, hr]⟩
      | visit f =>
        simp only [events_well_formed, Bool.and_eq_true] at hwf
        obtain ⟨s1, hv, h1, h2, h3⟩ := visit_keeps_stacks item_eq s f (hl hwf.1)
          (by rw [hts]; simp) (by rw [hms]; simp)
        obtain ⟨r, hr⟩ := ih s1 k b (by rw [h1]; exact ht) (by rw [h2]; exact hm)
          (fun _ => h3) hwf.2
        exact ⟨r, by simp only [image_mixer.run_events, image_mixer.call, hv, hr]⟩
      | end_ =>
        simp only [events_well_formed, Bool.and_eq_true, decide_eq_true_eq] at hwf
        have h0 := end_of_tops s ts t ms m hts hms
        obtain ⟨r, hr⟩ := ih ⟨ts, ms, s.layers_⟩ (k - 1) b
          (show ts.length = k - 1 + 1 by omega) (show ms.length = k - 1 + 1 by omega)
          hl hwf.2
        exact ⟨r, by simp only [image_mixer.run_events, image_mixer.call, h0, hr]⟩
      | begin_layer =>
        simp only [events_well_formed] at hwf
        obtain ⟨r, hr⟩ := ih s.begin_layer k true ht hm
          (fun _ => by simp [image_mixer.begin_layer]) hwf
        exact ⟨r, by simp only [image_mixer.run_events, image_mixer.call, hr]⟩
      | end_layer =>
        simp only [events_well_formed] at hwf
        obtain ⟨r, hr⟩ := ih s.end_layer k b ht hm hl hwf
        exact ⟨r, by simp only [image_mixer.run_events, image_mixer.call, hr]⟩

/-- C11: on a freshly constructed mixer every sequence of `begin`, `visit`, `end`,
`begin_layer`, `end_layer` and `render` calls in which each `end` closes an open `begin` and
each `visit` has a layer open runs to its end; and after every sequence that the mixer runs,
every layer of the accumulated layer list is free of duplicates under the render-item
comparison, and so is every layer that a `render` of the sequence handed to the composite. -/
theorem layers_are_duplicate_free (item_eq : render_item → render_item → Bool)
    (events : List mixer_event) :
    (events_well_formed 0 false events = true →
        ∃ r, image_mixer.ctor.run_events item_eq events = some r) ∧
      (∀ (s : image_mixer) (rendered : List (List (List render_item))),
        image_mixer.ctor.run_events item_eq events = some (s, rendered) →
        (∀ l ∈ s.layers_, duplicate_free item_eq l) ∧
          (∀ layers ∈ rendered, ∀ l ∈ layers, duplicate_free item_eq l)) :=
  ⟨run_events_defined item_eq events image_mixer.ctor 0 false rfl rfl (by simp),
    fun s rendered hrun =>
      run_events_keeps_duplicate_free item_eq events image_mixer.ctor s rendered
        (by simp [image_mixer.ctor]) hrun⟩

/-- C11, witness: `example_events` on a fresh mixer, with the comparison of the
specification; the drawable visited twice is in its layer once. -/
theorem layers_are_duplicate_free_witness :
    events_well_formed 0 false example_events = true ∧
      image_mixer.ctor.run_events render_item.spec_eq example_events =
        some (image_mixer.ctor.begin_layer, example_events_rendered) ∧
      (∀ l ∈ image_mixer.ctor.begin_layer.layers_, duplicate_free render_item.spec_eq l) ∧
      (∀ layers ∈ example_events_rendered, ∀ l ∈ layers,
        duplicate_free render_item.spec_eq l) :=
  have hrun : image_mixer.ctor.run_events render_item.spec_eq example_events =
      some (image_mixer.ctor.begin_layer, example_events_rendered) := by
    simp [example_events, example_events_rendered, image_mixer.run_events, image_mixer.call,
      image_mixer.visit, image_mixer.begin_layer, image_mixer.render, image_mixer.ctor, back,
      item_of, render_item.spec_eq, drawable_one, drawable_two,
      write_frame.get_pixel_format_desc, write_frame.get_textures, write_frame.tag]
  ⟨by decide, hrun,
    (layers_are_duplicate_free render_item.spec_eq example_events).2
      image_mixer.ctor.begin_layer example_events_rendered hrun⟩

/-- C14 (amended): from a mixer state with a layer open and stack tops `t` and `m`, for a
frame `fu` of mode `upper` and a frame `fl` of mode `lower`: when the scope of `fl` is begun
inside the scope of `fu` (`begin fu`, `visit`, `begin fl`), a `visit` in it returns the state
unchanged, nothing is added; when the two scopes are siblings (`begin fu`, `visit`, `end`,
`begin fl`) on a mode stack that holds no `upper`, the `visit` in the second scope is not
discarded: it appends the item with mode `lower` to the last layer unless an equal item is
already there. -/
theorem interlace_discard_needs_nesting (item_eq : render_item → render_item → Bool)
    (s : image_mixer) (fu fl : basic_frame) (w1 w2 : write_frame)
    (ts : List image_transform) (t : image_transform) (ms : List video_mode) (m : video_mode)
    (ht : s.transform_stack_ = ts ++ [t]) (hm : s.mode_stack_ = ms ++ [m])
    (hl : s.layers_ ≠ []) (hu : fu.get_mode = video_mode.upper)
    (hlow : fl.get_mode = video_mode.lower) :
    (∃ s1, s.run item_eq [mixer_call.begin fu, mixer_call.visit w1, mixer_call.begin fl] =
          some s1 ∧
        s1.mode_stack_ = ms ++ [m] ++ [video_mode.upper] ++ [video_mode.lower] ∧
        s1.visit item_eq w2 = some s1) ∧
      (video_mode.upper ∉ s.mode_stack_ → ∃ s1 ls layer,
        s.run item_eq [mixer_call.begin fu, mixer_call.visit w1, mixer_call.end_,
          mixer_call.begin fl] = some s1 ∧
        s1.mode_stack_ = ms ++ [m] ++ [video_mode.lower] ∧
        s1.layers_ = ls ++ [layer] ∧
        s1.visit item_eq w2 = some
          (if layer.any (fun x => item_eq x
              (item_of w2 (t * fl.get_image_transform) video_mode.lower)) then s1
            else { s1 with layers_ := ls ++
              [layer ++ [item_of w2 (t * fl.get_image_transform) video_mode.lower]] })) := by
  have h0 := begin_of_tops s fu ts t ms m ht hm
  rw [hu, if_neg (by decide)] at h0
  obtain ⟨s0, hv, hts, hms, hl0⟩ := visit_keeps_stacks item_eq
    ⟨(ts ++ [t]) ++ [t * fu.get_image_transform], (ms ++ [m]) ++ [video_mode.upper], s.layers_⟩
    w1 hl (by simp) (by simp)
  simp only at hts hms
  constructor
  · have h1 := begin_of_tops s0 fl _ _ _ _ hts hms
    rw [hlow, if_neg (by decide)] at h1
    refine ⟨⟨(ts ++ [t] ++ [t * fu.get_image_transform]) ++
        [t * fu.get_image_transform * fl.get_image_transform],
      (ms ++ [m] ++ [video_mode.upper]) ++ [video_mode.lower], s0.layers_⟩, ?_, rfl, ?_⟩
    · simp only [image_mixer.run, image_mixer.call, h0, hv, h1]
    · exact visit_of_conflict item_eq _ w2 (by simp) (by simp)
  · intro hnu
    have h1 := end_of_tops s0 _ _ _ _ hts hms
    have h2 := begin_of_tops
      ⟨ts ++ [t], ms ++ [m], s0.layers_⟩ fl ts t ms m rfl rfl
    rw [hlow, if_neg (by decide)] at h2
    obtain ⟨ls, layer, hlayers⟩ := (List.eq_nil_or_concat s0.layers_).resolve_left hl0
    rw [List.concat_eq_append] at hlayers
    refine ⟨⟨(ts ++ [t]) ++ [t * fl.get_image_transform],
      (ms ++ [m]) ++ [video_mode.lower], s0.layers_⟩, ls, layer, ?_, rfl, hlayers, ?_⟩
    · simp only [image_mixer.run, image_mixer.call, h0, hv, h1, h2]
    · refine visit_no_conflict item_eq _ w2 ls layer (ts ++ [t])
        (t * fl.get_image_transform) (ms ++ [m]) video_mode.lower hlayers rfl rfl ?_
      rintro ⟨hup, _⟩
      rw [hm] at hnu
      simp only [List.mem_append, List.mem_singleton] at hup hnu
      rcases hup with hup | hup
      · exact hnu hup
      · exact absurd hup (by decide)

/-- C14, witness: the fresh mixer after `begin_layer`, `upper_frame`, `lower_frame` and the
two example drawables. -/
theorem interlace_discard_needs_nesting_witness :
    image_mixer.ctor.begin_layer.layers_ ≠ [] ∧
      (∃ s1, image_mixer.ctor.begin_layer.run render_item.spec_eq
            [mixer_call.begin upper_frame, mixer_call.visit drawable_one,
              mixer_call.begin lower_frame] = some s1 ∧
        s1.mode_stack_ =
          [] ++ [video_mode.progressive] ++ [video_mode.upper] ++ [video_mode.lower] ∧
        s1.visit render_item.spec_eq drawable_two = some s1) ∧
      (video_mode.upper ∉ image_mixer.ctor.begin_layer.mode_stack_ → ∃ s1 ls layer,
        image_mixer.ctor.begin_layer.run render_item.spec_eq
            [mixer_call.begin upper_frame, mixer_call.visit drawable_one, mixer_call.end_,
              mixer_call.begin lower_frame] = some s1 ∧
        s1.mode_stack_ = [] ++ [video_mode.progressive] ++ [video_mode.lower] ∧
        s1.layers_ = ls ++ [layer] ∧
        s1.visit render_item.spec_eq drawable_two = some
          (if layer.any (fun x => render_item.spec_eq x
              (item_of drawable_two (image_transform.ctor * lower_frame.get_image_transform)
                video_mode.lower)) then s1
            else { s1 with layers_ := ls ++
              [layer ++ [item_of drawable_two
                (image_transform.ctor * lower_frame.get_image_transform)
                video_mode.lower]] })) :=
  have hl : image_mixer.ctor.begin_layer.layers_ ≠ [] := by
    simp [image_mixer.begin_layer]
  ⟨hl, interlace_discard_needs_nesting render_item.spec_eq image_mixer.ctor.begin_layer
    upper_frame lower_frame drawable_one drawable_two [] image_transform.ctor []
    video_mode.progressive rfl rfl hl rfl rfl⟩

/-- C14, counterexample: on a fresh mixer, one layer with two sibling scopes, the first begun
with mode `upper`, the second with mode `lower`, one drawable visited in each at mode-stack
depth 2.  The second visit is not dropped: after the pass the layer holds both items, the
second with mode `lower`. -/
theorem sibling_scopes_counterexample :
    Option.map (fun s => s.layers_.map (fun l => l.map (fun i => (i.tag, i.mode))))
        (image_mixer.ctor.run render_item.spec_eq sibling_pass) =
      some [[(1, video_mode.upper), (2, video_mode.lower)]] := by
  simp [sibling_pass, image_mixer.run, image_mixer.call, image_mixer.begin, image_mixer.end_,
    image_mixer.visit, image_mixer.begin_layer, image_mixer.end_layer, image_mixer.ctor, back,
    pop_back, render_item.spec_eq, drawable_one, drawable_two, basic_frame.get_mode,
    basic_frame.get_image_transform, write_frame.get_pixel_format_desc,
    write_frame.get_textures, write_frame.tag]

/-! ## Theorems: frame_consumer_device.cpp -/

theorem at_depth_in_range {α : Type} (buffer : circular_buffer α) (d : Nat) (h1 : 1 ≤ d)
    (h2 : d ≤ buffer.size) :
    ∃ (h : d - 1 < buffer.items.length), buffer.at_depth d = some (buffer.items[d - 1]) := by
  have hlt : d - 1 < buffer.items.length := by
    unfold circular_buffer.size at h2; omega
  refine ⟨hlt, ?_⟩
  unfold circular_buffer.at_depth
  rw [if_neg (by omega)]
  simp [hlt]

theorem map_erase_append_cons {β : Type} (index : Int) (value : β) (rest : List (Int × β)) :
    ∀ (kept : List (Int × β)), (∀ e ∈ kept, e.1 ≠ index) →
      map_erase index (kept ++ (index, value) :: rest) = kept ++ rest := by
  intro kept
  induction kept with
  | nil => intro _; simp [map_erase]
  | cons e es ih =>
    intro h
    obtain ⟨k, v⟩ := e
    have hk : k ≠ index := h (k, v) (by simp)
    show map_erase index ((k, v) :: (es ++ (index, value) :: rest)) = (k, v) :: (es ++ rest)
    rw [map_erase, if_neg hk, ih (fun e he => h e (by simp [he]))]

/-- The dispatch loop over a key-ordered map with all accesses in range: one attempt per
pending entry, in order, and exactly the entries whose `send` raised are erased. -/
theorem dispatch_spec (buffer : circular_buffer read_frame) :
    ∀ (pending kept : List (Int × frame_consumer)),
      map_ordered (kept ++ pending) → depths_in_range buffer pending →
      ∃ log, dispatch buffer pending (kept ++ pending) =
          some (kept ++ pending.filter (fun e => !send_fails buffer e), log) ∧
        pending.map (attempt_for buffer) = log.map some := by
  intro pending
  induction pending with
  | nil => intro kept _ _; exact ⟨[], by simp [dispatch], rfl⟩
  | cons e rest ih =>
    intro kept hord hin
    obtain ⟨index, consumer⟩ := e
    obtain ⟨h1, h2⟩ := hin (index, consumer) (by simp)
    obtain ⟨hlt, hat⟩ := at_depth_in_range buffer consumer.buffer_depth h1 h2
    have hin_rest : depths_in_range buffer rest := fun e he => hin e (by simp [he])
    have hord_parts := List.pairwise_append.mp hord
    by_cases hr : consumer.send_raises (buffer.items[consumer.buffer_depth - 1]) = true
    · have hkept : ∀ e ∈ kept, e.1 ≠ index := fun e he =>
        ne_of_lt (hord_parts.2.2 e he (index, consumer) (by simp))
      have hord_rest : map_ordered (kept ++ rest) :=
        List.Pairwise.sublist (List.Sublist.append_left (List.sublist_cons_self _ _) kept) hord
      obtain ⟨log, hd, hl⟩ := ih kept hord_rest hin_rest
      refine ⟨⟨index, buffer.items[consumer.buffer_depth - 1], true⟩ :: log, ?_, ?_⟩
      · simp only [dispatch, hat, hr, if_true, map_erase_append_cons index consumer rest kept
          hkept, hd]
        simp [send_fails, hat, hr]
      · simp [attempt_for, hat, hr, ← hl]
    · have hassoc : kept ++ (index, consumer) :: rest = (kept ++ [(index, consumer)]) ++ rest := by
        simp
      obtain ⟨log, hd, hl⟩ := ih (kept ++ [(index, consumer)]) (by rw [← hassoc]; exact hord)
        hin_rest
      refine ⟨⟨index, buffer.items[consumer.buffer_depth - 1], false⟩ :: log, ?_, ?_⟩
      · rw [hassoc]
        simp only [dispatch, hat, hr, hd]
        simp [send_fails, hat, hr]
      · simp [attempt_for, hat, hr, ← hl]

/-- A dispatching tick: the frame is pushed, every registered sink gets one attempt, in key
order, and the sinks whose `send` raised are gone from the map. -/
theorem consume_dispatching (s : frame_consumer_device) (frame : read_frame)
    (hord : map_ordered s.consumers_)
    (hfull : (s.buffer_.push_back frame).full = true)
    (hin : depths_in_range (s.buffer_.push_back frame) s.consumers_) :
    ∃ log, s.consume frame =
        some ({ buffer_ := s.buffer_.push_back frame,
                consumers_ := s.consumers_.filter
                  (fun e => !send_fails (s.buffer_.push_back frame) e) }, log) ∧
      s.consumers_.map (attempt_for (s.buffer_.push_back frame)) = log.map some := by
  obtain ⟨log, hd, hl⟩ := dispatch_spec (s.buffer_.push_back frame) s.consumers_ []
    (by simpa using hord) hin
  refine ⟨log, ?_, hl⟩
  simp only [List.nil_append] at hd
  simp only [frame_consumer_device.consume, hfull, hd]
  simp

theorem attempt_for_some (buffer : circular_buffer read_frame) (e : Int × frame_consumer)
    (a : send_attempt) (h : attempt_for buffer e = some a) :
    ∃ g, buffer.at_depth e.2.buffer_depth = some g ∧ a = ⟨e.1, g, e.2.send_raises g⟩ := by
  unfold attempt_for at h
  cases hg : buffer.at_depth e.2.buffer_depth with
  | none => rw [hg] at h; simp at h
  | some g =>
    rw [hg] at h
    simp only [Option.map_some', Option.some.injEq] at h
    exact ⟨g, rfl, h.symm⟩

theorem attempts_filter_none (buffer : circular_buffer read_frame) (i : Int) :
    ∀ (registry : List (Int × frame_consumer)) (log : List send_attempt),
      registry.map (attempt_for buffer) = log.map some → (∀ e ∈ registry, e.1 ≠ i) →
      log.filter (fun a => decide (a.index = i)) = [] := by
  intro registry
  induction registry with
  | nil =>
    intro log h _
    cases log with
    | nil => rfl
    | cons a l => simp at h
  | cons e rest ih =>
    intro log h hne
    cases log with
    | nil => simp at h
    | cons a l =>
      simp only [List.map_cons, List.cons.injEq] at h
      obtain ⟨g, _, ha⟩ := attempt_for_some buffer e a h.1
      have hai : a.index ≠ i := by rw [ha]; exact hne e (by simp)
      rw [List.filter_cons_of_neg (by simpa using hai)]
      exact ih l h.2 (fun e he => hne e (by simp [he]))

/-- In the log of a dispatch over a key-ordered map the sink registered at `i` has exactly one
attempt, with the frame found at its depth. -/
theorem attempts_filter_index (buffer : circular_buffer read_frame) (i : Int)
    (c : frame_consumer) (g : read_frame) (hg : buffer.at_depth c.buffer_depth = some g) :
    ∀ (registry : List (Int × frame_consumer)) (log : List send_attempt),
      registry.map (attempt_for buffer) = log.map some → map_ordered registry →
      (i, c) ∈ registry →
      log.filter (fun a => decide (a.index = i)) = [⟨i, g, c.send_raises g⟩] := by
  intro registry
  induction registry with
  | nil => intro log _ _ hmem; simp at hmem
  | cons e rest ih =>
    intro log h hord hmem
    cases log with
    | nil => simp at h
    | cons a l =>
      simp only [List.map_cons, List.cons.injEq] at h
      obtain ⟨g', hg', ha⟩ := attempt_for_some buffer e a h.1
      have hord_parts := List.pairwise_cons.mp hord
      rcases List.mem_cons.mp hmem with heq | hrest
      · subst heq
        simp only at hg' ha
        rw [hg] at hg'
        have hgg : g = g' := Option.some.inj hg'
        subst hgg
        rw [List.filter_cons_of_pos (by simp [ha])]
        rw [attempts_filter_none buffer i rest l h.2
          (fun e he => ne_of_gt (hord_parts.1 e he)), ha]
      · have hlt : e.1 < i := hord_parts.1 (i, c) hrest
        have hai : a.index ≠ i := by rw [ha]; exact ne_of_lt hlt
        rw [List.filter_cons_of_neg (by simpa using hai)]
        exact ih l h.2 hord_parts.2 hrest

theorem push_back_items_sublist {α : Type} (buffer : circular_buffer α) (x : α) :
    List.Sublist (buffer.push_back x).items (buffer.items ++ [x]) := by
  unfold circular_buffer.push_back
  split
  · split
    · exact List.sublist_append_left _ _
    · exact List.Sublist.append_right (List.tail_sublist _) _
  · exact List.Sublist.refl _

/-- C4: on a dispatching tick over a key-ordered registry with every access in range, the
attempts are exactly one per registered sink, in order, each with the frame at the depth of
the sink; the registry after the tick is the registry before without the sinks whose `send`
raised, so every sink whose `send` returned stays registered. -/
theorem dispatch_isolates_failing_sinks (s : frame_consumer_device) (frame : read_frame)
    (hord : map_ordered s.consumers_)
    (hfull : (s.buffer_.push_back frame).full = true)
    (hin : depths_in_range (s.buffer_.push_back frame) s.consumers_) :
    ∃ s' log, s.consume frame = some (s', log) ∧
      s'.buffer_ = s.buffer_.push_back frame ∧
      s.consumers_.map (attempt_for s'.buffer_) = log.map some ∧
      s'.consumers_ = s.consumers_.filter (fun e => !send_fails s'.buffer_ e) ∧
      (∀ e ∈ s.consumers_, send_fails s'.buffer_ e = false → e ∈ s'.consumers_) ∧
      (∀ e ∈ s.consumers_, send_fails s'.buffer_ e = true → e ∉ s'.consumers_) := by
  obtain ⟨log, hc, hl⟩ := consume_dispatching s frame hord hfull hin
  refine ⟨_, log, hc, rfl, hl, rfl, ?_, ?_⟩
  · intro e he hf
    simp only [List.mem_filter]
    exact ⟨he, by simp [hf]⟩
  · intro e _ hf hmem
    simp only [List.mem_filter] at hmem
    simp [hf] at hmem

/-- C4, witness: healthy sink at index 0, raising sink at index 1, frame 10. -/
theorem dispatch_isolates_failing_sinks_witness :
    map_ordered example_device.consumers_ ∧
      (example_device.buffer_.push_back 10).full = true ∧
      depths_in_range (example_device.buffer_.push_back 10) example_device.consumers_ ∧
      (∃ s' log, example_device.consume 10 = some (s', log) ∧
        s'.buffer_ = example_device.buffer_.push_back 10 ∧
        example_device.consumers_.map (attempt_for s'.buffer_) = log.map some ∧
        s'.consumers_ = example_device.consumers_.filter (fun e => !send_fails s'.buffer_ e) ∧
        (∀ e ∈ example_device.consumers_, send_fails s'.buffer_ e = false →
          e ∈ s'.consumers_) ∧
        (∀ e ∈ example_device.consumers_, send_fails s'.buffer_ e = true →
          e ∉ s'.consumers_)) :=
  have hord : map_ordered example_device.consumers_ := by
    simp [map_ordered, example_device, frame_consumer_device.add, frame_consumer_device.ctor,
      map_assign]
  have hfull : (example_device.buffer_.push_back 10).full = true := by decide
  have hin : depths_in_range (example_device.buffer_.push_back 10)
      example_device.consumers_ := by
    simp [depths_in_range, example_device, frame_consumer_device.add,
      frame_consumer_device.ctor, map_assign, healthy_sink, failing_sink,
      circular_buffer.push_back, circular_buffer.full, circular_buffer.size,
      circular_buffer.capacity, circular_buffer.set_capacity, circular_buffer.empty]
  ⟨hord, hfull, hin, dispatch_isolates_failing_sinks example_device 10 hord hfull hin⟩

/-- C2 (amended): on a dispatching tick over a key-ordered registry with every access in
range, where `time` orders the frames held and the frame being consumed by the tick at which
they were consumed, two registered sinks of depths `d1 < d2` each get one attempt, and the
frame sent to the sink of depth `d2` was consumed later (is newer) than the frame sent to the
sink of depth `d1`. -/
theorem deeper_sink_gets_newer_frame (time : read_frame → Nat) (s : frame_consumer_device)
    (frame : read_frame) (i1 i2 : Int) (c1 c2 : frame_consumer)
    (hord : map_ordered s.consumers_)
    (hfull : (s.buffer_.push_back frame).full = true)
    (hin : depths_in_range (s.buffer_.push_back frame) s.consumers_)
    (htime : (s.buffer_.items ++ [frame]).Pairwise (fun a b => time a < time b))
    (h1 : (i1, c1) ∈ s.consumers_) (h2 : (i2, c2) ∈ s.consumers_)
    (hd : c1.buffer_depth < c2.buffer_depth) :
    ∃ s' log g1 g2, s.consume frame = some (s', log) ∧
      log.filter (fun a => decide (a.index = i1)) = [⟨i1, g1, c1.send_raises g1⟩] ∧
      log.filter (fun a => decide (a.index = i2)) = [⟨i2, g2, c2.send_raises g2⟩] ∧
      time g1 < time g2 := by
  obtain ⟨log, hc, hl⟩ := consume_dispatching s frame hord hfull hin
  obtain ⟨h1a, h1b⟩ := hin (i1, c1) h1
  obtain ⟨h2a, h2b⟩ := hin (i2, c2) h2
  obtain ⟨hlt1, hat1⟩ := at_depth_in_range _ c1.buffer_depth h1a h1b
  obtain ⟨hlt2, hat2⟩ := at_depth_in_range _ c2.buffer_depth h2a h2b
  refine ⟨_, log, _, _, hc,
    attempts_filter_index _ i1 c1 _ hat1 s.consumers_ log hl hord h1,
    attempts_filter_index _ i2 c2 _ hat2 s.consumers_ log hl hord h2, ?_⟩
  have hpw := List.Pairwise.sublist (push_back_items_sublist s.buffer_ frame) htime
  exact List.pairwise_iff_getElem.mp hpw _ _ hlt1 hlt2 (by simp only at h1a; omega)

/-- C2, witness: sinks of depth 1 and 2, frame 10 held, frame 20 consumed; the time of a frame
is its number. -/
theorem deeper_sink_gets_newer_frame_witness :
    map_ordered example_two_depths.consumers_ ∧
      (example_two_depths.buffer_.push_back 20).full = true ∧
      depths_in_range (example_two_depths.buffer_.push_back 20)
        example_two_depths.consumers_ ∧
      (example_two_depths.buffer_.items ++ [20]).Pairwise (fun a b => id a < id b) ∧
      (∃ s' log g1 g2, example_two_depths.consume 20 = some (s', log) ∧
        log.filter (fun a => decide (a.index = 0)) =
          [⟨0, g1, (healthy_sink 1).send_raises g1⟩] ∧
        log.filter (fun a => decide (a.index = 1)) =
          [⟨1, g2, (healthy_sink 2).send_raises g2⟩] ∧
        id g1 < id g2) :=
  have hord : map_ordered example_two_depths.consumers_ := by
    simp [map_ordered, example_two_depths]
  have hfull : (example_two_depths.buffer_.push_back 20).full = true := by decide
  have hin : depths_in_range (example_two_depths.buffer_.push_back 20)
      example_two_depths.consumers_ := by
    simp [depths_in_range, example_two_depths, healthy_sink, circular_buffer.push_back,
      circular_buffer.full, circular_buffer.size, circular_buffer.capacity,
      circular_buffer.empty]
  have htime : (example_two_depths.buffer_.items ++ [20]).Pairwise
      (fun a b => id a < id b) := by
    simp [example_two_depths]
  ⟨hord, hfull, hin, htime,
    deeper_sink_gets_newer_frame id example_two_depths 20 0 1 (healthy_sink 1)
      (healthy_sink 2) hord hfull hin htime (by simp [example_two_depths])
      (by simp [example_two_depths]) (by decide)⟩

/-- C2, counterexample: sinks of depth 1 (index 0) and depth 2 (index 1) on a fresh scheduler,
frames 10 and 20 consumed in this order.  The second tick dispatches: the sink of depth 2 is
sent frame 20, consumed in that very tick, and the sink of depth 1 is sent frame 10, consumed
one tick before; the deeper sink does not get the older frame. -/
theorem deeper_sink_older_counterexample :
    Option.map Prod.snd
        (((frame_consumer_device.ctor.add 0 (healthy_sink 1)).add 1
          (healthy_sink 2)).consume_all [10, 20]) =
        some [[], [⟨0, 10, false⟩, ⟨1, 20, false⟩]] ∧
      ¬ (List.indexOf 20 [10, 20] < List.indexOf 10 [10, 20]) := by
  constructor
  · rfl
  · decide

/-- C3 (amended): on a scheduler whose buffer has capacity 3 and is empty, with a key-ordered
registry of sinks of depths 1 to 3 holding a sink of depth 2 at index `i`, and frames `f1`,
`f2`, `f3` consumed in this order: the first two `consume` calls make no attempt and leave
the registry as it is, and the third makes exactly one attempt on that sink, with `f2`, the
frame consumed one tick before (buffer index 1), not `f1`. -/
theorem third_consume_sends_second_frame (s : frame_consumer_device) (i : Int)
    (c : frame_consumer) (f1 f2 f3 : read_frame)
    (hb : s.buffer_ = ⟨3, []⟩) (hord : map_ordered s.consumers_)
    (hdepths : ∀ e ∈ s.consumers_, 1 ≤ e.2.buffer_depth ∧ e.2.buffer_depth ≤ 3)
    (hreg : (i, c) ∈ s.consumers_) (hc : c.buffer_depth = 2) :
    ∃ s1 s2 s3 log, s.consume f1 = some (s1, []) ∧ s1.consumers_ = s.consumers_ ∧
      s1.consume f2 = some (s2, []) ∧ s2.consumers_ = s.consumers_ ∧
      s2.consume f3 = some (s3, log) ∧
      log.filter (fun a => decide (a.index = i)) = [⟨i, f2, c.send_raises f2⟩] := by
  obtain ⟨buffer, consumers⟩ := s
  simp only at hb hord hdepths hreg
  subst hb
  have hpush : (circular_buffer.mk 3 [f1, f2]).push_back f3 = ⟨3, [f1, f2, f3]⟩ := by
    simp [circular_buffer.push_back, circular_buffer.full, circular_buffer.size,
      circular_buffer.capacity]
  have hfull : ((circular_buffer.mk 3 [f1, f2]).push_back f3).full = true := by
    rw [hpush]; rfl
  have hin : depths_in_range ((circular_buffer.mk 3 [f1, f2]).push_back f3) consumers := by
    rw [hpush]; exact hdepths
  obtain ⟨log, hcons, hl⟩ := consume_dispatching ⟨⟨3, [f1, f2]⟩, consumers⟩ f3 hord hfull hin
  have hat : ((circular_buffer.mk 3 [f1, f2]).push_back f3).at_depth c.buffer_depth =
      some f2 := by
    rw [hpush, hc]; rfl
  refine ⟨⟨⟨3, [f1]⟩, consumers⟩, ⟨⟨3, [f1, f2]⟩, consumers⟩, _, log, ?_, rfl, ?_, rfl,
    hcons, attempts_filter_index _ i c f2 hat consumers log hl hord hreg⟩
  · simp [frame_consumer_device.consume, circular_buffer.push_back, circular_buffer.full,
      circular_buffer.size, circular_buffer.capacity]
  · simp [frame_consumer_device.consume, circular_buffer.push_back, circular_buffer.full,
      circular_buffer.size, circular_buffer.capacity]

/-- C3, witness: `example_capacity_three` (capacity 3, empty, a sink of depth 2 at index 0)
and the frames 1, 2, 3. -/
theorem third_consume_sends_second_frame_witness :
    example_capacity_three.buffer_ = ⟨3, []⟩ ∧
      map_ordered example_capacity_three.consumers_ ∧
      (∀ e ∈ example_capacity_three.consumers_,
        1 ≤ e.2.buffer_depth ∧ e.2.buffer_depth ≤ 3) ∧
      (∃ s1 s2 s3 log, example_capacity_three.consume 1 = some (s1, []) ∧
        s1.consumers_ = example_capacity_three.consumers_ ∧
        s1.consume 2 = some (s2, []) ∧ s2.consumers_ = example_capacity_three.consumers_ ∧
        s2.consume 3 = some (s3, log) ∧
        log.filter (fun a => decide (a.index = 0)) =
          [⟨0, 2, (healthy_sink 2).send_raises 2⟩]) :=
  have hcons : example_capacity_three.consumers_ = [(0, healthy_sink 2)] := by
    simp [example_capacity_three, frame_consumer_device.remove, frame_consumer_device.add,
      frame_consumer_device.ctor, map_assign, map_erase]
  have hord : map_ordered example_capacity_three.consumers_ := by
    rw [hcons]; simp [map_ordered]
  have hdepths : ∀ e ∈ example_capacity_three.consumers_,
      1 ≤ e.2.buffer_depth ∧ e.2.buffer_depth ≤ 3 := by
    rw [hcons]; simp [healthy_sink]
  ⟨rfl, hord, hdepths,
    third_consume_sends_second_frame example_capacity_three 0 (healthy_sink 2) 1 2 3 rfl hord
      hdepths (by rw [hcons]; simp) rfl⟩

/-- C3, counterexample: on `example_capacity_three` (capacity 3, empty, one sink of depth 2 at
index 0) the frames 1, 2, 3 are consumed; the first two ticks make no attempt and the third
sends the sink frame 2, not frame 1, the frame from two ticks before. -/
theorem third_consume_counterexample :
    example_capacity_three.buffer_ = ⟨3, []⟩ ∧
      Option.map Prod.snd (example_capacity_three.consume_all [1, 2, 3]) =
        some [[], [], [⟨0, 2, false⟩]] ∧
      sent_to [⟨0, 2, false⟩] 0 ≠ some 1 := by
  refine ⟨rfl, rfl, by decide⟩

theorem map_assign_mem {β : Type} (index : Int) (value : β) :
    ∀ (m : List (Int × β)) (e : Int × β), e ∈ map_assign index value m →
      e = (index, value) ∨ e ∈ m := by
  intro m
  induction m with
  | nil => intro e he; simp [map_assign] at he; exact Or.inl he
  | cons a rest ih =>
    intro e he
    obtain ⟨k, v⟩ := a
    unfold map_assign at he
    split at he
    · rcases List.mem_cons.mp he with h | h
      · exact Or.inl h
      · exact Or.inr h
    · split at he
      · rcases List.mem_cons.mp he with h | h
        · exact Or.inl h
        · exact Or.inr (List.mem_cons_of_mem _ h)
      · rcases List.mem_cons.mp he with h | h
        · exact Or.inr (by rw [h]; exact List.mem_cons_self _ _)
        · rcases ih e h with h' | h'
          · exact Or.inl h'
          · exact Or.inr (List.mem_cons_of_mem _ h')

/-- The assignment `consumers_[index] = consumer` keeps the map key-ordered, whatever the
order in which indices are added. -/
theorem map_assign_ordered {β : Type} (index : Int) (value : β) :
    ∀ (m : List (Int × β)), map_ordered m → map_ordered (map_assign index value m) := by
  intro m
  induction m with
  | nil => intro _; simp [map_assign, map_ordered]
  | cons a rest ih =>
    intro hord
    obtain ⟨k, v⟩ := a
    have hparts := List.pairwise_cons.mp hord
    unfold map_assign
    split
    · next hlt =>
      refine List.pairwise_cons.mpr ⟨?_, hord⟩
      intro e he
      rcases List.mem_cons.mp he with h | h
      · rw [h]; exact hlt
      · exact lt_trans hlt (hparts.1 e h)
    · split
      · next _ heq =>
        refine List.pairwise_cons.mpr ⟨?_, hparts.2⟩
        intro e he
        show index < e.1
        rw [heq]
        exact hparts.1 e he
      · next hnlt hne =>
        refine List.pairwise_cons.mpr ⟨?_, ih hparts.2⟩
        intro e he
        rcases map_assign_mem index value rest e he with h | h
        · rw [h]
          show k < index
          omega
        · exact hparts.1 e h

theorem map_erase_sublist {β : Type} (index : Int) :
    ∀ (m : List (Int × β)), List.Sublist (map_erase index m) m := by
  intro m
  induction m with
  | nil => exact List.Sublist.refl _
  | cons a rest ih =>
    obtain ⟨k, v⟩ := a
    unfold map_erase
    split
    · exact List.sublist_cons_self _ _
    · exact List.Sublist.cons₂ _ ih

theorem push_back_capacity {α : Type} (b : circular_buffer α) (x : α) :
    (b.push_back x).capacity = b.capacity := by
  unfold circular_buffer.push_back
  split
  · split <;> rfl
  · rfl

theorem push_back_size_le {α : Type} (b : circular_buffer α) (x : α)
    (h : b.size ≤ b.capacity) : (b.push_back x).size ≤ (b.push_back x).capacity := by
  rw [push_back_capacity]
  unfold circular_buffer.push_back
  split
  · next hfull =>
    split
    · exact h
    · next hempty =>
      simp only [circular_buffer.full, decide_eq_true_eq] at hfull
      simp only [circular_buffer.empty, decide_eq_true_eq] at hempty
      simp only [circular_buffer.size, circular_buffer.capacity] at *
      simp only [List.length_append, List.length_tail, List.length_singleton]
      omega
  · next hfull =>
    simp only [circular_buffer.full, decide_eq_true_eq] at hfull
    simp only [circular_buffer.size, circular_buffer.capacity] at *
    simp only [List.length_append, List.length_singleton]
    omega

theorem ctor_device_inv : device_inv frame_consumer_device.ctor := by
  refine ⟨List.Pairwise.nil, ?_, ?_⟩
  · intro e he; simp [frame_consumer_device.ctor] at he
  · simp [frame_consumer_device.ctor, circular_buffer.size, circular_buffer.capacity]

theorem add_capacity (s : frame_consumer_device) (index : Int) (consumer : frame_consumer) :
    (s.add index consumer).buffer_.capacity = max s.buffer_.capacity consumer.buffer_depth := by
  unfold frame_consumer_device.add
  simp only
  split
  · next h =>
    simp only [circular_buffer.set_capacity, circular_buffer.capacity] at h ⊢
    omega
  · next h =>
    simp only [circular_buffer.capacity] at h ⊢
    omega

theorem add_device_inv (s : frame_consumer_device) (index : Int) (consumer : frame_consumer)
    (hinv : device_inv s) (hdepth : 1 ≤ consumer.buffer_depth) :
    device_inv (s.add index consumer) := by
  obtain ⟨hord, hdepths, hsize⟩ := hinv
  have hcap := add_capacity s index consumer
  refine ⟨map_assign_ordered index consumer _ hord, ?_, ?_⟩
  · intro e he
    rw [hcap]
    rcases map_assign_mem index consumer _ e he with h | h
    · rw [h]; exact ⟨hdepth, le_max_right _ _⟩
    · exact ⟨(hdepths e h).1, le_trans (hdepths e h).2 (le_max_left _ _)⟩
  · rw [hcap]
    refine le_trans ?_ (le_trans hsize (le_max_left _ _))
    unfold frame_consumer_device.add
    simp only
    split
    · simp only [circular_buffer.set_capacity, circular_buffer.size, List.length_take]
      exact min_le_right _ _
    · exact le_refl _

theorem remove_device_inv (s : frame_consumer_device) (index : Int) (hinv : device_inv s) :
    device_inv (s.remove index) := by
  obtain ⟨hord, hdepths, hsize⟩ := hinv
  refine ⟨List.Pairwise.sublist (map_erase_sublist index _) hord, ?_, hsize⟩
  intro e he
  exact hdepths e ((map_erase_sublist index _).subset he)

/-- Under the invariant every `consume` has a defined result, and the invariant holds
afterwards. -/
theorem consume_device_inv (s : frame_consumer_device) (frame : read_frame)
    (hinv : device_inv s) :
    ∃ s' log, s.consume frame = some (s', log) ∧ device_inv s' ∧
      s'.buffer_ = s.buffer_.push_back frame := by
  obtain ⟨hord, hdepths, hsize⟩ := hinv
  have hcap := push_back_capacity s.buffer_ frame
  have hsz := push_back_size_le s.buffer_ frame hsize
  by_cases hfull : (s.buffer_.push_back frame).full = true
  · have hin : depths_in_range (s.buffer_.push_back frame) s.consumers_ := by
      intro e he
      refine ⟨(hdepths e he).1, ?_⟩
      simp only [circular_buffer.full, decide_eq_true_eq] at hfull
      rw [hfull, hcap]
      exact (hdepths e he).2
    obtain ⟨log, hc, _⟩ := consume_dispatching s frame hord hfull hin
    refine ⟨_, log, hc, ⟨List.Pairwise.filter _ hord, ?_, hsz⟩, rfl⟩
    intro e he
    rw [hcap]
    exact hdepths e (List.mem_of_mem_filter he)
  · refine ⟨{ s with buffer_ := s.buffer_.push_back frame }, [], ?_, ⟨hord, ?_, hsz⟩, rfl⟩
    · simp only [frame_consumer_device.consume, hfull]
      simp
    · intro e he
      rw [hcap]
      exact hdepths e he

/-- A scheduler in the invariant, fed with sinks of depth at least 1, runs every sequence of
calls and stays in the invariant. -/
theorem run_device_inv :
    ∀ (ops : List device_call) (s : frame_consumer_device), device_inv s →
      sinks_have_depth ops → ∃ s', s.run ops = some s' ∧ device_inv s' := by
  intro ops
  induction ops with
  | nil => intro s hinv _; exact ⟨s, rfl, hinv⟩
  | cons c cs ih =>
    intro s hinv hpos
    cases c with
    | add index consumer =>
      simp only [sinks_have_depth] at hpos
      obtain ⟨s', hrun, hinv'⟩ := ih _ (add_device_inv s index consumer hinv hpos.1) hpos.2
      exact ⟨s', by simp only [frame_consumer_device.run, frame_consumer_device.call, hrun],
        hinv'⟩
    | remove index =>
      simp only [sinks_have_depth] at hpos
      obtain ⟨s', hrun, hinv'⟩ := ih _ (remove_device_inv s index hinv) hpos
      exact ⟨s', by simp only [frame_consumer_device.run, frame_consumer_device.call, hrun],
        hinv'⟩
    | consume frame =>
      simp only [sinks_have_depth] at hpos
      obtain ⟨s1, log, hc, hinv1, _⟩ := consume_device_inv s frame hinv
      obtain ⟨s', hrun, hinv'⟩ := ih s1 hinv1 hpos
      exact ⟨s', by
        simp only [frame_consumer_device.run, frame_consumer_device.call, hc, Option.map_some',
          hrun], hinv'⟩

theorem consume_capacity (s s' : frame_consumer_device) (frame : read_frame)
    (log : List send_attempt) (h : s.consume frame = some (s', log)) :
    s'.buffer_.capacity = s.buffer_.capacity := by
  unfold frame_consumer_device.consume at h
  simp only at h
  split at h
  · cases h; exact push_back_capacity _ _
  · split at h
    · exact absurd h (by simp)
    · cases h; exact push_back_capacity _ _

/-- The capacity after a sequence of calls: the larger of the capacity before and the largest
depth passed to `add`. -/
theorem run_capacity :
    ∀ (ops : List device_call) (s s' : frame_consumer_device), s.run ops = some s' →
      s'.buffer_.capacity = max s.buffer_.capacity (max_depth_added ops) := by
  intro ops
  induction ops with
  | nil =>
    intro s s' h
    simp only [frame_consumer_device.run, Option.some.injEq] at h
    subst h
    simp [max_depth_added]
  | cons c cs ih =>
    intro s s' h
    cases c with
    | add index consumer =>
      simp only [frame_consumer_device.run, frame_consumer_device.call] at h
      rw [ih _ s' h, add_capacity, max_depth_added, max_assoc]
    | remove index =>
      simp only [frame_consumer_device.run, frame_consumer_device.call] at h
      rw [ih _ s' h]
      simp only [max_depth_added, frame_consumer_device.remove]
    | consume frame =>
      simp only [frame_consumer_device.run, frame_consumer_device.call] at h
      cases hc : s.consume frame with
      | none => rw [hc] at h; simp at h
      | some r =>
        obtain ⟨s1, log⟩ := r
        rw [hc] at h
        simp only [Option.map_some'] at h
        rw [ih s1 s' h, consume_capacity s s1 frame log hc]
        simp only [max_depth_added]

theorem attempts_indices (buffer : circular_buffer read_frame) :
    ∀ (registry : List (Int × frame_consumer)) (log : List send_attempt),
      registry.map (attempt_for buffer) = log.map some →
      log.map send_attempt.index = registry.map Prod.fst := by
  intro registry
  induction registry with
  | nil =>
    intro log h
    cases log with
    | nil => rfl
    | cons a l => simp at h
  | cons e rest ih =>
    intro log h
    cases log with
    | nil => simp at h
    | cons a l =>
      simp only [List.map_cons, List.cons.injEq] at h
      obtain ⟨g, _, ha⟩ := attempt_for_some buffer e a h.1
      simp only [List.map_cons, ih l h.2, ha]

/-- C17: when the buffer, after the frame is pushed, holds fewer frames than its capacity,
`consume` makes no attempt on any sink and leaves the registry as it is, only the buffer
changes; and a `consume` that makes an attempt is one after whose push the buffer is full. -/
theorem warm_up_sends_nothing (s : frame_consumer_device) (frame : read_frame) :
    ((s.buffer_.push_back frame).size < (s.buffer_.push_back frame).capacity →
        s.consume frame =
          some ({ buffer_ := s.buffer_.push_back frame, consumers_ := s.consumers_ }, [])) ∧
      (∀ s' log, s.consume frame = some (s', log) → log ≠ [] →
        (s.buffer_.push_back frame).full = true) := by
  have hnot : (s.buffer_.push_back frame).full = false →
      s.consume frame =
        some ({ buffer_ := s.buffer_.push_back frame, consumers_ := s.consumers_ }, []) := by
    intro h
    simp only [frame_consumer_device.consume, h]
    simp
  constructor
  · intro hlt
    apply hnot
    simp only [circular_buffer.full, decide_eq_false_iff_not]
    omega
  · intro s' log hc hlog
    by_contra hfull
    rw [hnot (by simpa using hfull)] at hc
    simp only [Option.some.injEq, Prod.mk.injEq] at hc
    exact hlog hc.2.symm

/-- C17, witness: `example_capacity_three` (capacity 3, empty, one sink) and frame 1. -/
theorem warm_up_sends_nothing_witness :
    (example_capacity_three.buffer_.push_back 1).size <
        (example_capacity_three.buffer_.push_back 1).capacity ∧
      example_capacity_three.consume 1 =
        some ({ buffer_ := example_capacity_three.buffer_.push_back 1,
                consumers_ := example_capacity_three.consumers_ }, []) :=
  have h : (example_capacity_three.buffer_.push_back 1).size <
      (example_capacity_three.buffer_.push_back 1).capacity := by decide
  ⟨h, (warm_up_sends_nothing example_capacity_three 1).1 h⟩

/-- C18: after every sequence of `add`, `remove` and `consume` calls that a freshly
constructed scheduler runs, the capacity of the buffer is the largest depth among the sinks
passed to `add` (0 if none), and every sequence whose sinks have depth at least 1 does run;
`add` makes the capacity the larger of the capacity before and the depth of the new sink,
`remove` and `consume` leave it as it is. -/
theorem capacity_is_largest_depth_added (ops : List device_call) :
    (∀ s, frame_consumer_device.ctor.run ops = some s →
        s.buffer_.capacity = max_depth_added ops) ∧
      (sinks_have_depth ops → ∃ s, frame_consumer_device.ctor.run ops = some s ∧
        s.buffer_.capacity = max_depth_added ops) ∧
      (∀ (s : frame_consumer_device) (index : Int) (consumer : frame_consumer),
        (s.add index consumer).buffer_.capacity =
          max s.buffer_.capacity consumer.buffer_depth) ∧
      (∀ (s : frame_consumer_device) (index : Int),
        (s.remove index).buffer_.capacity = s.buffer_.capacity) ∧
      (∀ (s s' : frame_consumer_device) (frame : read_frame) (log : List send_attempt),
        s.consume frame = some (s', log) → s'.buffer_.capacity = s.buffer_.capacity) := by
  have hcap : ∀ s, frame_consumer_device.ctor.run ops = some s →
      s.buffer_.capacity = max_depth_added ops := by
    intro s h
    rw [run_capacity ops _ s h]
    simp [frame_consumer_device.ctor, circular_buffer.capacity]
  refine ⟨hcap, ?_, add_capacity, fun _ _ => rfl, consume_capacity⟩
  intro hpos
  obtain ⟨s, hrun, _⟩ := run_device_inv ops _ ctor_device_inv hpos
  exact ⟨s, hrun, hcap s hrun⟩

/-- C18, witness: `example_calls`, where the sink of the largest depth (3) is removed again
and the sink at index 5 is replaced by a shallower one; the capacity ends at 3. -/
theorem capacity_is_largest_depth_added_witness :
    sinks_have_depth example_calls ∧ max_depth_added example_calls = 3 ∧
      (∃ s, frame_consumer_device.ctor.run example_calls = some s ∧
        s.buffer_.capacity = max_depth_added example_calls) :=
  have hpos : sinks_have_depth example_calls := by
    simp [example_calls, sinks_have_depth, healthy_sink, failing_sink]
  ⟨hpos, rfl, (capacity_is_largest_depth_added example_calls).2.1 hpos⟩

/-- C19: on a scheduler reached from a fresh one by any sequence of `add`, `remove` and
`consume` calls with sinks of depth at least 1, the registry is in ascending index order
whatever the order of the `add` calls, and on a dispatching tick the attempts are made on the
registered sinks one by one in that strictly ascending order, each registered index once,
whether or not earlier attempts raised. -/
theorem dispatch_in_ascending_index_order (ops : List device_call) (frame : read_frame)
    (hpos : sinks_have_depth ops) :
    ∃ s, frame_consumer_device.ctor.run ops = some s ∧
      (s.consumers_.map Prod.fst).Pairwise (fun a b => a < b) ∧
      ((s.buffer_.push_back frame).full = true → ∃ s' log,
        s.consume frame = some (s', log) ∧
        log.map send_attempt.index = s.consumers_.map Prod.fst ∧
        (log.map send_attempt.index).Pairwise (fun a b => a < b)) := by
  obtain ⟨s, hrun, hord, hdepths, hsize⟩ := run_device_inv ops _ ctor_device_inv hpos
  have hkeys : (s.consumers_.map Prod.fst).Pairwise (fun a b => a < b) :=
    List.pairwise_map.mpr hord
  refine ⟨s, hrun, hkeys, ?_⟩
  intro hfull
  have hin : depths_in_range (s.buffer_.push_back frame) s.consumers_ := by
    intro e he
    refine ⟨(hdepths e he).1, ?_⟩
    simp only [circular_buffer.full, decide_eq_true_eq] at hfull
    rw [hfull, push_back_capacity]
    exact (hdepths e he).2
  obtain ⟨log, hc, hl⟩ := consume_dispatching s frame hord hfull hin
  have hidx := attempts_indices _ s.consumers_ log hl
  exact ⟨_, log, hc, hidx, by rw [hidx]; exact hkeys⟩

/-- C19, witness: `example_calls`, whose sinks are added at the indices 5, 1, 3, 5 in this
order and leave a raising sink at index 1 and a healthy one at index 5, and frame 30, which
fills the buffer. -/
theorem dispatch_in_ascending_index_order_witness :
    sinks_have_depth example_calls ∧
      (∃ s, frame_consumer_device.ctor.run example_calls = some s ∧
        (s.consumers_.map Prod.fst).Pairwise (fun a b => a < b) ∧
        ((s.buffer_.push_back 30).full = true → ∃ s' log,
          s.consume 30 = some (s', log) ∧
          log.map send_attempt.index = s.consumers_.map Prod.fst ∧
          (log.map send_attempt.index).Pairwise (fun a b => a < b))) :=
  have hpos : sinks_have_depth example_calls := by
    simp [example_calls, sinks_have_depth, healthy_sink, failing_sink]
  ⟨hpos, dispatch_in_ascending_index_order example_calls 30 hpos⟩

/-- C25: on a scheduler reached from a fresh one by `add`, `remove` and `consume` calls whose
sinks all report a depth of at least 1, whatever frame is consumed next: when the tick
dispatches, every registered sink has a depth of at least 1 and the index `buffer_depth - 1`
is below the number of frames held, so each access yields a frame and the tick has a defined
result with one attempt per registered sink. -/
theorem dispatch_access_in_bounds (ops : List device_call) (frame : read_frame)
    (hpos : sinks_have_depth ops) :
    ∃ s, frame_consumer_device.ctor.run ops = some s ∧
      ((s.buffer_.push_back frame).full = true →
        (∀ e ∈ s.consumers_, 1 ≤ e.2.buffer_depth ∧
          e.2.buffer_depth - 1 < (s.buffer_.push_back frame).size ∧
          ∃ g, (s.buffer_.push_back frame).at_depth e.2.buffer_depth = some g) ∧
        (∃ s' log, s.consume frame = some (s', log) ∧
          log.length = s.consumers_.length)) := by
  obtain ⟨s, hrun, hord, hdepths, hsize⟩ := run_device_inv ops _ ctor_device_inv hpos
  refine ⟨s, hrun, ?_⟩
  intro hfull
  have hin : depths_in_range (s.buffer_.push_back frame) s.consumers_ := by
    intro e he
    refine ⟨(hdepths e he).1, ?_⟩
    simp only [circular_buffer.full, decide_eq_true_eq] at hfull
    rw [hfull, push_back_capacity]
    exact (hdepths e he).2
  constructor
  · intro e he
    obtain ⟨h1, h2⟩ := hin e he
    obtain ⟨hlt, hat⟩ := at_depth_in_range _ e.2.buffer_depth h1 h2
    exact ⟨h1, hlt, _, hat⟩
  · obtain ⟨log, hc, hl⟩ := consume_dispatching s frame hord hfull hin
    refine ⟨_, log, hc, ?_⟩
    have := congrArg List.length hl
    simpa using this.symm

/-- C25, witness: `example_calls` and frame 30, which fills the buffer. -/
theorem dispatch_access_in_bounds_witness :
    sinks_have_depth example_calls ∧
      (∃ s, frame_consumer_device.ctor.run example_calls = some s ∧
        ((s.buffer_.push_back 30).full = true →
          (∀ e ∈ s.consumers_, 1 ≤ e.2.buffer_depth ∧
            e.2.buffer_depth - 1 < (s.buffer_.push_back 30).size ∧
            ∃ g, (s.buffer_.push_back 30).at_depth e.2.buffer_depth = some g) ∧
          (∃ s' log, s.consume 30 = some (s', log) ∧
            log.length = s.consumers_.length))) :=
  have hpos : sinks_have_depth example_calls := by
    simp [example_calls, sinks_have_depth, healthy_sink, failing_sink]
  ⟨hpos, dispatch_access_in_bounds example_calls 30 hpos⟩

/-! ## Theorems: video_channel.cpp -/

/-- C1 (amended): on a channel whose output, mixer and stage hold the active descriptor `F`,
for a valid descriptor `G`: when one of the three propagations raises, and the rollback call on
each subsystem that had already taken `G` does not raise, the call fails and on return output,
mixer, stage and the channel all hold `F`. -/
theorem failed_propagation_rolls_back (o : call_outcomes) (s : video_channel)
    (G : video_format_desc) (hvalid : G.format ≠ video_format.invalid)
    (hout : s.output_ = s.format_desc_) (hmix : s.mixer_ = s.format_desc_)
    (hstage : s.stage_ = s.format_desc_)
    (hfail : o.output_raises = true ∨ o.mixer_raises = true ∨ o.stage_raises = true)
    (hrb_output : o.output_raises = false → o.rollback_output_raises = false)
    (hrb_mixer : o.output_raises = false → o.mixer_raises = false →
      o.rollback_mixer_raises = false) :
    (s.set_video_format_desc o G).2 ≠ none ∧
      (s.set_video_format_desc o G).1.output_ = s.format_desc_ ∧
      (s.set_video_format_desc o G).1.mixer_ = s.format_desc_ ∧
      (s.set_video_format_desc o G).1.stage_ = s.format_desc_ ∧
      (s.set_video_format_desc o G).1.get_video_format_desc = s.format_desc_ := by
  obtain ⟨o1, o2, o3, o4, r1, r2, r3⟩ := o
  obtain ⟨F, so, sm, ss, calls⟩ := s
  simp only at hout hmix hstage hfail hrb_output hrb_mixer
  subst hout hmix hstage
  simp only [video_channel.set_video_format_desc, if_neg hvalid, video_channel.try_block,
    video_channel.catch_block, video_channel.get_video_format_desc]
  cases o1 <;> cases o2 <;> cases o3 <;> cases o4 <;> cases r1 <;> cases r2 <;> cases r3 <;>
    simp_all

/-- C1, witness: the mixer is forced to fail (on the propagation and on the rollback), the
channel goes from `desc_pal` towards `desc_720p50`. -/
theorem failed_propagation_rolls_back_witness :
    ((video_channel.ctor desc_pal).set_video_format_desc mixer_forced_to_fail desc_720p50).2
        ≠ none ∧
      ((video_channel.ctor desc_pal).set_video_format_desc mixer_forced_to_fail
        desc_720p50).1.output_ = (video_channel.ctor desc_pal).format_desc_ ∧
      ((video_channel.ctor desc_pal).set_video_format_desc mixer_forced_to_fail
        desc_720p50).1.mixer_ = (video_channel.ctor desc_pal).format_desc_ ∧
      ((video_channel.ctor desc_pal).set_video_format_desc mixer_forced_to_fail
        desc_720p50).1.stage_ = (video_channel.ctor desc_pal).format_desc_ ∧
      ((video_channel.ctor desc_pal).set_video_format_desc mixer_forced_to_fail
        desc_720p50).1.get_video_format_desc = (video_channel.ctor desc_pal).format_desc_ :=
  failed_propagation_rolls_back mixer_forced_to_fail (video_channel.ctor desc_pal) desc_720p50
    (by decide) rfl rfl rfl (by decide) (by decide) (by decide)

/-- C1, counterexample: the channel holds `desc_pal` everywhere, `desc_720p50` is valid, the
propagation to the mixer raises, and so does the rollback call on the output.  The call fails
and on return the output holds `desc_720p50` while mixer, stage and channel hold `desc_pal`. -/
theorem failed_propagation_counterexample :
    desc_720p50.format ≠ video_format.invalid ∧
      mixer_and_rollback_fail.mixer_raises = true ∧
      (video_channel.ctor desc_pal).set_video_format_desc mixer_and_rollback_fail desc_720p50 =
        (⟨desc_pal, desc_720p50, desc_pal, desc_pal,
            [channel_call.output_set desc_720p50, channel_call.mixer_set desc_720p50,
              channel_call.output_set desc_pal]⟩,
          some (channel_error.raised_in_catch (channel_call.output_set desc_pal))) ∧
      ((video_channel.ctor desc_pal).set_video_format_desc mixer_and_rollback_fail
        desc_720p50).1.output_ ≠ (video_channel.ctor desc_pal).format_desc_ := by
  refine ⟨by decide, rfl, rfl, by decide⟩

/-- C15: `set_video_format_desc` with a descriptor whose format is `invalid` raises the
invalid-argument error and changes nothing: the descriptors held by output, mixer, stage and
channel are as before and no call (propagation or garbage collection) was made, whatever the
collaborators would have done. -/
theorem invalid_format_is_rejected (o : call_outcomes) (s : video_channel)
    (G : video_format_desc) (hinvalid : G.format = video_format.invalid) :
    s.set_video_format_desc o G = (s, some channel_error.invalid_argument) ∧
      (s.set_video_format_desc o G).1.calls_ = s.calls_ ∧
      (s.set_video_format_desc o G).1.get_video_format_desc = s.get_video_format_desc := by
  have h : s.set_video_format_desc o G = (s, some channel_error.invalid_argument) := by
    simp only [video_channel.set_video_format_desc, if_pos hinvalid]
  rw [h]
  exact ⟨rfl, rfl, rfl⟩

/-- C15, witness: a fresh channel on `desc_pal`, collaborators that would all accept, and the
descriptor `desc_invalid`. -/
theorem invalid_format_is_rejected_witness :
    (video_channel.ctor desc_pal).set_video_format_desc no_call_raises desc_invalid =
        (video_channel.ctor desc_pal, some channel_error.invalid_argument) ∧
      ((video_channel.ctor desc_pal).set_video_format_desc no_call_raises desc_invalid).1.calls_
        = (video_channel.ctor desc_pal).calls_ ∧
      ((video_channel.ctor desc_pal).set_video_format_desc no_call_raises
        desc_invalid).1.get_video_format_desc =
        (video_channel.ctor desc_pal).get_video_format_desc :=
  invalid_format_is_rejected no_call_raises (video_channel.ctor desc_pal) desc_invalid rfl

/-- C16: for a valid descriptor `G`, when the three propagations and the garbage collection
all return, `set_video_format_desc` returns normally; output, mixer, stage and the channel
(`get_video_format_desc`) then hold `G`, and the calls made are, in this order, the
propagation to output, to mixer, to stage, and one garbage collection. -/
theorem successful_reconfiguration (o : call_outcomes) (s : video_channel)
    (G : video_format_desc) (hvalid : G.format ≠ video_format.invalid)
    (hout : o.output_raises = false) (hmix : o.mixer_raises = false)
    (hstage : o.stage_raises = false) (hgc : o.gc_raises = false) :
    (s.set_video_format_desc o G).2 = none ∧
      (s.set_video_format_desc o G).1.output_ = G ∧
      (s.set_video_format_desc o G).1.mixer_ = G ∧
      (s.set_video_format_desc o G).1.stage_ = G ∧
      (s.set_video_format_desc o G).1.get_video_format_desc = G ∧
      (s.set_video_format_desc o G).1.calls_ = s.calls_ ++
        [channel_call.output_set G, channel_call.mixer_set G, channel_call.stage_set G,
          channel_call.gc] := by
  simp [video_channel.set_video_format_desc, hvalid, video_channel.try_block, hout, hmix,
    hstage, hgc, video_channel.get_video_format_desc]

/-- C16, witness: a fresh channel on `desc_pal` reconfigured to `desc_720p50`, no call
raising. -/
theorem successful_reconfiguration_witness :
    ((video_channel.ctor desc_pal).set_video_format_desc no_call_raises desc_720p50).2 = none ∧
      ((video_channel.ctor desc_pal).set_video_format_desc no_call_raises
        desc_720p50).1.output_ = desc_720p50 ∧
      ((video_channel.ctor desc_pal).set_video_format_desc no_call_raises
        desc_720p50).1.mixer_ = desc_720p50 ∧
      ((video_channel.ctor desc_pal).set_video_format_desc no_call_raises
        desc_720p50).1.stage_ = desc_720p50 ∧
      ((video_channel.ctor desc_pal).set_video_format_desc no_call_raises
        desc_720p50).1.get_video_format_desc = desc_720p50 ∧
      ((video_channel.ctor desc_pal).set_video_format_desc no_call_raises
        desc_720p50).1.calls_ = (video_channel.ctor desc_pal).calls_ ++
        [channel_call.output_set desc_720p50, channel_call.mixer_set desc_720p50,
          channel_call.stage_set desc_720p50, channel_call.gc] :=
  successful_reconfiguration no_call_raises (video_channel.ctor desc_pal) desc_720p50
    (by decide) rfl rfl rfl rfl

/-! ## Theorems: image_mixer.cpp, the composite -/

theorem kernel_draws_append (a b : List gpu_op) :
    kernel_draws (a ++ b) = kernel_draws a ++ kernel_draws b := by
  induction a with
  | nil => rfl
  | cons op ops ih =>
    cases op <;> simp [kernel_draws, ih]

theorem kernel_draws_draw_ops (ready : Nat → Bool) (target : device_buffer)
    (item : render_item) (local_key layer_key : Option device_buffer) :
    kernel_draws (draw_ops ready target item local_key layer_key) =
      [⟨item, target, local_key, layer_key⟩] := by
  unfold draw_ops
  split <;> simp [kernel_draws]

theorem draw_into_some (ready : Nat → Bool) (c : compositor) (target : device_buffer)
    (item : render_item) (local_key layer_key : Option device_buffer) :
    c.draw_into ready (some target) item local_key layer_key =
      some { c with ops_ := c.ops_ ++ draw_ops ready target item local_key layer_key } := by
  unfold compositor.draw_into draw_ops compositor.issue
  split <;> simp

/-- A key item when no local key buffer is there: one is allocated and cleared, and the item
is drawn into it with no key input. -/
theorem draw_item_key_absent (is_key : image_transform → Bool) (ready : Nat → Bool)
    (format_desc : video_format_desc) (c : compositor) (item : render_item)
    (hkey : is_key item.transform = true) (hnone : c.local_key_buffer_ = none) :
    c.draw_item is_key ready format_desc item =
      some { c with
        local_key_buffer_ := some ⟨c.allocated_, format_desc.width, format_desc.height, 1⟩
        allocated_ := c.allocated_ + 1
        ops_ := c.ops_ ++
          ([gpu_op.create_device_buffer
              ⟨c.allocated_, format_desc.width, format_desc.height, 1⟩,
            gpu_op.clear ⟨c.allocated_, format_desc.width, format_desc.height, 1⟩] ++
            draw_ops ready ⟨c.allocated_, format_desc.width, format_desc.height, 1⟩ item
              none none) } := by
  unfold compositor.draw_item
  simp only [hkey, if_true, hnone, Option.isNone_none, compositor.create_device_buffer,
    compositor.issue, draw_into_some]
  simp

/-- A key item when a local key buffer is there: the item is drawn into that buffer with no
key input, nothing is allocated or cleared. -/
theorem draw_item_key_present (is_key : image_transform → Bool) (ready : Nat → Bool)
    (format_desc : video_format_desc) (c : compositor) (item : render_item)
    (b : device_buffer) (hkey : is_key item.transform = true)
    (hsome : c.local_key_buffer_ = some b) :
    c.draw_item is_key ready format_desc item =
      some { c with ops_ := c.ops_ ++ draw_ops ready b item none none } := by
  unfold compositor.draw_item
  simp only [hkey, if_true, hsome, Option.isNone_some, Bool.false_eq_true, if_false,
    draw_into_some]

/-- A fill item: it is drawn into the main draw buffer with the local key and the layer key
as they are, and the local key is cleared. -/
theorem draw_item_fill (is_key : image_transform → Bool) (ready : Nat → Bool)
    (format_desc : video_format_desc) (c : compositor) (item : render_item)
    (d : device_buffer) (hfill : is_key item.transform = false)
    (hd : c.draw_buffer_ = some d) :
    c.draw_item is_key ready format_desc item =
      some { c with
        local_key_buffer_ := none
        ops_ := c.ops_ ++
          draw_ops ready d item c.local_key_buffer_ c.layer_key_buffer_ } := by
  unfold compositor.draw_item
  simp only [hfill, Bool.false_eq_true, if_false, hd, draw_into_some]

/-- One item of a layer, whatever its kind, on a compositor whose main draw buffer is `d`
(four channels) and whose local key buffer, if any, has one channel. -/
theorem draw_item_step (is_key : image_transform → Bool) (ready : Nat → Bool)
    (format_desc : video_format_desc) (d : device_buffer) (hd4 : d.channels = 4)
    (c : compositor) (item : render_item) (hd : c.draw_buffer_ = some d)
    (hloc : ∀ b, c.local_key_buffer_ = some b → b.channels = 1) :
    ∃ c1 ops1, c.draw_item is_key ready format_desc item = some c1 ∧
      c1.ops_ = c.ops_ ++ ops1 ∧ c1.draw_buffer_ = some d ∧
      c1.layer_key_buffer_ = c.layer_key_buffer_ ∧
      (∀ b, c1.local_key_buffer_ = some b → b.channels = 1) ∧
      c1.local_key_buffer_.isSome = is_key item.transform ∧
      (kernel_draws ops1).map (kernel_draw_call.observed d) =
        [if is_key item.transform then (item, false, false, false)
          else (item, true, c.local_key_buffer_.isSome, c.layer_key_buffer_.isSome)] ∧
      (∀ k ∈ kernel_draws ops1, is_key k.item.transform = false →
        k.layer_key = c.layer_key_buffer_ ∧ k.target = d) ∧
      (∀ b, c1.local_key_buffer_ = some b →
        c.local_key_buffer_ = some b ∨ gpu_op.create_device_buffer b ∈ ops1) := by
  by_cases hkey : is_key item.transform = true
  · cases hl : c.local_key_buffer_ with
    | none =>
      have hne : (⟨c.allocated_, format_desc.width, format_desc.height, 1⟩ : device_buffer)
          ≠ d := by
        intro h
        have := congrArg device_buffer.channels h
        simp only at this
        omega
      refine ⟨_, _, draw_item_key_absent is_key ready format_desc c item hkey hl, rfl, hd,
        rfl, ?_, ?_, ?_, ?_, ?_⟩
      · intro b hb
        simp only [Option.some.injEq] at hb
        rw [← hb]
      · simp [hkey]
      · rw [kernel_draws_append, kernel_draws_draw_ops]
        simp [kernel_draws, kernel_draw_call.observed, hkey, hne]
      · intro k hk
        rw [kernel_draws_append, kernel_draws_draw_ops] at hk
        simp only [kernel_draws, List.nil_append, List.mem_singleton] at hk
        subst hk
        intro hfill
        simp only at hfill
        rw [hkey] at hfill
        exact absurd hfill (by simp)
      · intro b hb
        simp only [Option.some.injEq] at hb
        right
        rw [← hb]
        simp
    | some b0 =>
      have hne : b0 ≠ d := by
        intro h
        have h1 := hloc b0 hl
        rw [h] at h1
        omega
      refine ⟨_, _, draw_item_key_present is_key ready format_desc c item b0 hkey hl, rfl,
        hd, rfl, ?_, ?_, ?_, ?_, ?_⟩
      · intro b hb
        exact hloc b (by simpa using hb)
      · simp [hkey, hl]
      · rw [kernel_draws_draw_ops]
        simp [kernel_draw_call.observed, hkey, hne]
      · intro k hk
        rw [kernel_draws_draw_ops] at hk
        simp only [List.mem_singleton] at hk
        subst hk
        intro hfill
        simp only at hfill
        rw [hkey] at hfill
        exact absurd hfill (by simp)
      · intro b hb
        left
        have hb2 : c.local_key_buffer_ = some b := by simpa using hb
        rw [hl] at hb2
        exact hb2
  · have hfill : is_key item.transform = false := by simpa using hkey
    refine ⟨_, _, draw_item_fill is_key ready format_desc c item d hfill hd, rfl, hd, rfl,
      ?_, ?_, ?_, ?_, ?_⟩
    · intro b hb
      simp at hb
    · simp [hfill]
    · rw [kernel_draws_draw_ops]
      simp [kernel_draw_call.observed, hfill]
    · intro k hk
      rw [kernel_draws_draw_ops] at hk
      simp only [List.mem_singleton] at hk
      subst hk
      intro _
      exact ⟨rfl, rfl⟩
    · intro b hb
      simp at hb

/-- The loop over the items of a layer: every item is drawn, a fill item with a local key
exactly when the item before it is a key item (for the first item: when a local key was
there before the loop), and always with the layer key of the start of the loop. -/
theorem draw_items_spec (is_key : image_transform → Bool) (ready : Nat → Bool)
    (format_desc : video_format_desc) (d : device_buffer) (hd4 : d.channels = 4) :
    ∀ (layer : List render_item) (c : compositor), c.draw_buffer_ = some d →
      (∀ b, c.local_key_buffer_ = some b → b.channels = 1) →
      ∃ c' ops, c.draw_items is_key ready format_desc layer = some c' ∧
        c'.ops_ = c.ops_ ++ ops ∧ c'.draw_buffer_ = some d ∧
        c'.layer_key_buffer_ = c.layer_key_buffer_ ∧
        (∀ b, c'.local_key_buffer_ = some b → b.channels = 1) ∧
        c'.local_key_buffer_.isSome = key_left_over is_key c.local_key_buffer_.isSome layer ∧
        (kernel_draws ops).map (kernel_draw_call.observed d) =
          List.zipWith
            (fun item (previous_is_key : Bool) =>
              if is_key item.transform then (item, false, false, false)
              else (item, true, previous_is_key, c.layer_key_buffer_.isSome))
            layer (c.local_key_buffer_.isSome :: layer.map (fun item => is_key item.transform)) ∧
        (∀ k ∈ kernel_draws ops, is_key k.item.transform = false →
          k.layer_key = c.layer_key_buffer_ ∧ k.target = d) ∧
        (∀ b, c'.local_key_buffer_ = some b →
          c.local_key_buffer_ = some b ∨ gpu_op.create_device_buffer b ∈ ops) := by
  intro layer
  induction layer with
  | nil =>
    intro c hd hloc
    exact ⟨c, [], rfl, by simp, hd, rfl, hloc, rfl, rfl, by simp [kernel_draws],
      fun b hb => Or.inl hb⟩
  | cons item rest ih =>
    intro c hd hloc
    obtain ⟨c1, ops1, hstep, hops1, hd1, hlayer1, hloc1, hsome1, hobs1, hfill1, hnew1⟩ :=
      draw_item_step is_key ready format_desc d hd4 c item hd hloc
    obtain ⟨c2, ops2, hrest, hops2, hd2, hlayer2, hloc2, hsome2, hobs2, hfill2, hnew2⟩ :=
      ih c1 hd1 hloc1
    refine ⟨c2, ops1 ++ ops2, ?_, ?_, hd2, hlayer2.trans hlayer1, hloc2, ?_, ?_, ?_, ?_⟩
    · simp only [compositor.draw_items, hstep, hrest]
    · rw [hops2, hops1, List.append_assoc]
    · rw [hsome2, hsome1]; rfl
    · rw [kernel_draws_append, List.map_append, hobs1, hobs2, hsome1, hlayer1]
      simp [List.zipWith]
    · intro k hk
      rw [kernel_draws_append, List.mem_append] at hk
      rcases hk with hk | hk
      · exact hfill1 k hk
      · intro hf
        rw [← hlayer1]
        exact hfill2 k hk hf
    · intro b hb
      rcases hnew2 b hb with h | h
      · rcases hnew1 b h with h' | h'
        · exact Or.inl h'
        · exact Or.inr (List.mem_append_left _ h')
      · exact Or.inr (List.mem_append_right _ h)

theorem key_left_over_eq_ends_with_key (is_key : image_transform → Bool) :
    ∀ (layer : List render_item) (previous : Bool),
      key_left_over is_key previous layer =
        (match layer.getLast? with
          | none => previous
          | some item => is_key item.transform) := by
  intro layer
  induction layer with
  | nil => intro p; rfl
  | cons item rest ih =>
    intro p
    rw [key_left_over, ih]
    cases rest with
    | nil => rfl
    | cons x xs =>
      rw [List.getLast?_cons_cons, List.getLast?_eq_getLast _ (List.cons_ne_nil x xs)]

/-- One layer: the local key is reset, the items are drawn, the buffers are swapped.  The
layer key afterwards is the local key left by the items, there exactly when the layer ends
with a key item, and then a buffer allocated during this layer. -/
theorem draw_layer_spec (is_key : image_transform → Bool) (ready : Nat → Bool)
    (format_desc : video_format_desc) (d : device_buffer) (hd4 : d.channels = 4)
    (c : compositor) (layer : List render_item) (hd : c.draw_buffer_ = some d) :
    ∃ c1 c' ops,
      compositor.draw_items is_key ready format_desc
        { c with local_key_buffer_ := none } layer = some c1 ∧
      c.draw_layer is_key ready format_desc layer = some c' ∧
      c'.ops_ = c.ops_ ++ ops ∧ c'.draw_buffer_ = some d ∧
      c'.layer_key_buffer_ = c1.local_key_buffer_ ∧
      c'.local_key_buffer_ = c.layer_key_buffer_ ∧
      c'.layer_key_buffer_.isSome = ends_with_key is_key layer ∧
      (kernel_draws ops).map (kernel_draw_call.observed d) =
        spec_layer_draws is_key c.layer_key_buffer_.isSome layer ∧
      (∀ k ∈ kernel_draws ops, is_key k.item.transform = false →
        k.layer_key = c.layer_key_buffer_ ∧ k.target = d) ∧
      (∀ b, c'.layer_key_buffer_ = some b → gpu_op.create_device_buffer b ∈ ops) := by
  obtain ⟨c1, ops, hitems, hops, hd1, hlayer1, _, hsome1, hobs1, hfill1, hnew1⟩ :=
    draw_items_spec is_key ready format_desc d hd4 layer
      { c with local_key_buffer_ := none } hd (by simp)
  refine ⟨c1, { c1 with local_key_buffer_ := c1.layer_key_buffer_,
                         layer_key_buffer_ := c1.local_key_buffer_ }, ops, hitems, ?_, hops,
    hd1, rfl, hlayer1, ?_, ?_, hfill1, ?_⟩
  · simp only [compositor.draw_layer, hitems]
  · simp only [hsome1, Option.isSome_none, key_left_over_eq_ends_with_key, ends_with_key]
  · rw [hobs1]
    rfl
  · intro b hb
    rcases hnew1 b hb with h | h
    · simp at h
    · exact h

theorem begin_pass_draw_buffer (format_desc : video_format_desc) (c : compositor) :
    (c.begin_pass format_desc).draw_buffer_ =
        some ⟨c.allocated_, format_desc.width, format_desc.height, 4⟩ ∧
      (c.begin_pass format_desc).layer_key_buffer_ = c.layer_key_buffer_ ∧
      (c.begin_pass format_desc).ops_ = c.ops_ ++
        [gpu_op.create_device_buffer ⟨c.allocated_, format_desc.width, format_desc.height, 4⟩,
          gpu_op.clear ⟨c.allocated_, format_desc.width, format_desc.height, 4⟩] := by
  simp [compositor.begin_pass, compositor.create_device_buffer, compositor.issue]

/-- The loop over the layers of a pass: every layer is drawn, the first with the layer key
that was there before the loop, each later one with a layer key exactly when the layer before
it ends with a key item. -/
theorem draw_layers_spec (is_key : image_transform → Bool) (ready : Nat → Bool)
    (format_desc : video_format_desc) (d : device_buffer) (hd4 : d.channels = 4) :
    ∀ (layers : List (List render_item)) (c : compositor), c.draw_buffer_ = some d →
      ∃ c' ops, c.draw_layers is_key ready format_desc layers = some c' ∧
        c'.ops_ = c.ops_ ++ ops ∧ c'.draw_buffer_ = some d ∧
        (kernel_draws ops).map (kernel_draw_call.observed d) =
          spec_pass_draws is_key c.layer_key_buffer_.isSome layers := by
  intro layers
  induction layers with
  | nil => intro c hd; exact ⟨c, [], rfl, by simp, hd, rfl⟩
  | cons layer rest ih =>
    intro c hd
    obtain ⟨_, c1, ops1, _, hlayer, hops1, hd1, _, _, hsome1, hobs1, _, _⟩ :=
      draw_layer_spec is_key ready format_desc d hd4 c layer hd
    obtain ⟨c2, ops2, hrest, hops2, hd2, hobs2⟩ := ih c1 hd1
    refine ⟨c2, ops1 ++ ops2, ?_, ?_, hd2, ?_⟩
    · simp only [compositor.draw_layers, hlayer, hrest]
    · rw [hops2, hops1, List.append_assoc]
    · rw [kernel_draws_append, List.map_append, hobs1, hobs2, hsome1]
      rfl

theorem draw_layers_append (is_key : image_transform → Bool) (ready : Nat → Bool)
    (format_desc : video_format_desc) :
    ∀ (l1 l2 : List (List render_item)) (c : compositor),
      c.draw_layers is_key ready format_desc (l1 ++ l2) =
        (c.draw_layers is_key ready format_desc l1).bind
          (fun c1 => c1.draw_layers is_key ready format_desc l2) := by
  intro l1
  induction l1 with
  | nil => intro l2 c; rfl
  | cons layer rest ih =>
    intro l2 c
    simp only [List.cons_append, compositor.draw_layers]
    cases c.draw_layer is_key ready format_desc layer with
    | none => rfl
    | some c1 => exact ih l2 c1

/-- The composite of one pass has a defined result, and its draws are those of
`spec_pass_draws` for the layer list and for the layer key that the compositor held when the
pass began. -/
theorem render_spec (is_key : image_transform → Bool) (ready : Nat → Bool)
    (format_desc : video_format_desc) (c : compositor) (layers : List (List render_item)) :
    ∃ c' ops, c.render is_key ready format_desc layers = some c' ∧
      c'.ops_ = c.ops_ ++ ops ∧
      (kernel_draws ops).map (kernel_draw_call.observed
          ⟨c.allocated_, format_desc.width, format_desc.height, 4⟩) =
        spec_pass_draws is_key c.layer_key_buffer_.isSome layers := by
  obtain ⟨hd, hlk, hops⟩ := begin_pass_draw_buffer format_desc c
  obtain ⟨c1, ops1, hlayers, hops1, hd1, hobs1⟩ :=
    draw_layers_spec is_key ready format_desc _ rfl layers (c.begin_pass format_desc) hd
  have hr : c.render is_key ready format_desc layers = some
      ((((c1.issue gpu_op.create_host_buffer).issue
        (gpu_op.attach ⟨c.allocated_, format_desc.width, format_desc.height, 4⟩)).issue
        (gpu_op.begin_read ⟨c.allocated_, format_desc.width, format_desc.height, 4⟩)).issue
        gpu_op.flush) := by
    simp only [compositor.render, hlayers]
    have hd1' : (c1.issue gpu_op.create_host_buffer).draw_buffer_ =
        some ⟨c.allocated_, format_desc.width, format_desc.height, 4⟩ := hd1
    simp only [hd1']
  refine ⟨_, [gpu_op.create_device_buffer
        ⟨c.allocated_, format_desc.width, format_desc.height, 4⟩,
      gpu_op.clear ⟨c.allocated_, format_desc.width, format_desc.height, 4⟩] ++ ops1 ++
      [gpu_op.create_host_buffer,
        gpu_op.attach ⟨c.allocated_, format_desc.width, format_desc.height, 4⟩,
        gpu_op.begin_read ⟨c.allocated_, format_desc.width, format_desc.height, 4⟩,
        gpu_op.flush], hr, ?_, ?_⟩
  · simp only [compositor.issue, hops1, hops, List.append_assoc]
    rfl
  · simp only [kernel_draws_append, List.map_append, hobs1, hlk]
    simp [kernel_draws]

/-- The draw at position `i` of a layer as `spec_layer_draws` gives it: for a fill item the
local key is there exactly when `i > 0` and the item at `i - 1` is a key item. -/
theorem zipWith_previous_getElem? (is_key : image_transform → Bool) (layer_key : Bool) :
    ∀ (layer : List render_item) (p : Bool) (i : Nat),
      (List.zipWith
          (fun item (previous_is_key : Bool) =>
            if is_key item.transform then (item, false, false, false)
            else (item, true, previous_is_key, layer_key))
          layer (p :: layer.map (fun item => is_key item.transform)))[i]? =
        layer[i]?.map (fun item =>
          if is_key item.transform then (item, false, false, false)
          else (item, true,
            (if i = 0 then p
              else (layer[i - 1]?.map (fun x => is_key x.transform)).getD false),
            layer_key)) := by
  intro layer
  induction layer with
  | nil => intro p i; simp
  | cons item rest ih =>
    intro p i
    cases i with
    | zero => simp
    | succ j =>
      simp only [List.map_cons, List.zipWith_cons_cons, List.getElem?_cons_succ, ih,
        Nat.add_sub_cancel, Nat.succ_ne_zero, if_false]
      cases j with
      | zero => simp
      | succ n => simp

/-- C22: within one layer, on a compositor whose main draw buffer is `d` (four channels): the
layer has a defined result and its draws are, item by item, a key item into a key buffer
(not `d`) with no key input, a fill item into `d` with a local key exactly when the item just
before it in the layer is a key item; a key item allocates and clears a key buffer only when
none is there; a fill item is drawn with the local and the layer key as they are and leaves
no local key. -/
theorem layer_items_draw_as_specified (is_key : image_transform → Bool) (ready : Nat → Bool)
    (format_desc : video_format_desc) (d : device_buffer) (c : compositor)
    (layer : List render_item) (hd4 : d.channels = 4) (hd : c.draw_buffer_ = some d) :
    (∃ c' ops, c.draw_layer is_key ready format_desc layer = some c' ∧
        c'.ops_ = c.ops_ ++ ops ∧
        (kernel_draws ops).map (kernel_draw_call.observed d) =
          spec_layer_draws is_key c.layer_key_buffer_.isSome layer ∧
        (∀ i, ((kernel_draws ops).map (kernel_draw_call.observed d))[i]? =
          layer[i]?.map (fun item =>
            if is_key item.transform then (item, false, false, false)
            else (item, true,
              (if i = 0 then false
                else (layer[i - 1]?.map (fun x => is_key x.transform)).getD false),
              c.layer_key_buffer_.isSome)))) ∧
      (∀ (c0 : compositor) (item : render_item), is_key item.transform = true →
        c0.local_key_buffer_ = none →
        c0.draw_item is_key ready format_desc item =
          some { c0 with
            local_key_buffer_ :=
              some ⟨c0.allocated_, format_desc.width, format_desc.height, 1⟩
            allocated_ := c0.allocated_ + 1
            ops_ := c0.ops_ ++
              ([gpu_op.create_device_buffer
                  ⟨c0.allocated_, format_desc.width, format_desc.height, 1⟩,
                gpu_op.clear ⟨c0.allocated_, format_desc.width, format_desc.height, 1⟩] ++
                draw_ops ready ⟨c0.allocated_, format_desc.width, format_desc.height, 1⟩
                  item none none) }) ∧
      (∀ (c0 : compositor) (item : render_item) (b : device_buffer),
        is_key item.transform = true → c0.local_key_buffer_ = some b →
        c0.draw_item is_key ready format_desc item =
          some { c0 with ops_ := c0.ops_ ++ draw_ops ready b item none none }) ∧
      (∀ (c0 : compositor) (item : render_item), is_key item.transform = false →
        c0.draw_buffer_ = some d →
        c0.draw_item is_key ready format_desc item =
          some { c0 with
            local_key_buffer_ := none
            ops_ := c0.ops_ ++
              draw_ops ready d item c0.local_key_buffer_ c0.layer_key_buffer_ }) := by
  obtain ⟨_, c', ops, _, hlayer, hops, _, _, _, _, hobs, _, _⟩ :=
    draw_layer_spec is_key ready format_desc d hd4 c layer hd
  refine ⟨⟨c', ops, hlayer, hops, hobs, ?_⟩,
    fun c0 item hk hn => draw_item_key_absent is_key ready format_desc c0 item hk hn,
    fun c0 item b hk hs => draw_item_key_present is_key ready format_desc c0 item b hk hs,
    fun c0 item hf h => draw_item_fill is_key ready format_desc c0 item d hf h⟩
  intro i
  rw [hobs]
  exact zipWith_previous_getElem? is_key _ layer false i

/-- C22, witness: `example_compositor` and `example_layer` (key, key, fill, fill): the draws
are the two key items into a key buffer, the first fill item with the local key, the second
without. -/
theorem layer_items_draw_as_specified_witness :
    (⟨0, 720, 576, 4⟩ : device_buffer).channels = 4 ∧
      example_compositor.draw_buffer_ = some ⟨0, 720, 576, 4⟩ ∧
      spec_layer_draws example_is_key example_compositor.layer_key_buffer_.isSome
          example_layer =
        [(example_key_item, false, false, false), (example_key_item, false, false, false),
          (example_fill_item, true, true, false), (example_fill_item, true, false, false)] ∧
      (∃ c' ops, example_compositor.draw_layer example_is_key (fun _ => true) desc_pal
            example_layer = some c' ∧
        c'.ops_ = example_compositor.ops_ ++ ops ∧
        (kernel_draws ops).map (kernel_draw_call.observed ⟨0, 720, 576, 4⟩) =
          spec_layer_draws example_is_key example_compositor.layer_key_buffer_.isSome
            example_layer ∧
        (∀ i, ((kernel_draws ops).map (kernel_draw_call.observed ⟨0, 720, 576, 4⟩))[i]? =
          example_layer[i]?.map (fun item =>
            if example_is_key item.transform then (item, false, false, false)
            else (item, true,
              (if i = 0 then false
                else (example_layer[i - 1]?.map
                  (fun x => example_is_key x.transform)).getD false),
              example_compositor.layer_key_buffer_.isSome)))) :=
  ⟨rfl, rfl, by
    simp [spec_layer_draws, example_layer, example_is_key, example_key_item,
      example_fill_item, example_compositor, image_transform.set_gain, image_transform.ctor],
    (layer_items_draw_as_specified example_is_key (fun _ => true) desc_pal ⟨0, 720, 576, 4⟩
      example_compositor example_layer rfl rfl).1⟩

/-- C23: in the composite of one pass over the layers `before ++ A :: B :: after`, whatever
the compositor held when the pass began: the pass has a defined result; the layer key with
which layer `B` is drawn is the local key left by the items of layer `A`; it is there exactly
when `A` ends with a key item (so not when `A` is empty); it was allocated while `A` was
drawn, not in a layer before it; and every fill item of `B` is drawn with this same layer
key, the draws of `B` being those of `spec_layer_draws`. -/
theorem layer_key_is_left_by_previous_layer (is_key : image_transform → Bool)
    (ready : Nat → Bool) (format_desc : video_format_desc) (c0 : compositor)
    (before : List (List render_item)) (A B : List render_item)
    (after : List (List render_item)) :
    ∃ ck cA c1 c2 opsA opsB final later,
      (c0.begin_pass format_desc).draw_layers is_key ready format_desc before = some ck ∧
      compositor.draw_items is_key ready format_desc
        { ck with local_key_buffer_ := none } A = some cA ∧
      ck.draw_layer is_key ready format_desc A = some c1 ∧ c1.ops_ = ck.ops_ ++ opsA ∧
      c1.draw_layer is_key ready format_desc B = some c2 ∧ c2.ops_ = c1.ops_ ++ opsB ∧
      c0.render is_key ready format_desc (before ++ A :: B :: after) = some final ∧
      final.ops_ = c2.ops_ ++ later ∧
      c1.layer_key_buffer_ = cA.local_key_buffer_ ∧
      c1.layer_key_buffer_.isSome = ends_with_key is_key A ∧
      (∀ b, c1.layer_key_buffer_ = some b → gpu_op.create_device_buffer b ∈ opsA) ∧
      (∀ k ∈ kernel_draws opsB, is_key k.item.transform = false →
        k.layer_key = c1.layer_key_buffer_) ∧
      (kernel_draws opsB).map (kernel_draw_call.observed
          ⟨c0.allocated_, format_desc.width, format_desc.height, 4⟩) =
        spec_layer_draws is_key (ends_with_key is_key A) B := by
  obtain ⟨hd, _, _⟩ := begin_pass_draw_buffer format_desc c0
  obtain ⟨ck, _, hbefore, _, hdk, _⟩ :=
    draw_layers_spec is_key ready format_desc _ rfl before (c0.begin_pass format_desc) hd
  obtain ⟨cA, c1, opsA, hitemsA, hlayerA, hopsA, hd1, hkeyA, _, hsomeA, _, _, hnewA⟩ :=
    draw_layer_spec is_key ready format_desc _ rfl ck A hdk
  obtain ⟨_, c2, opsB, _, hlayerB, hopsB, hd2, _, _, _, hobsB, hfillB, _⟩ :=
    draw_layer_spec is_key ready format_desc _ rfl c1 B hd1
  obtain ⟨c3, ops3, hafter, hops3, hd3, _⟩ :=
    draw_layers_spec is_key ready format_desc _ rfl after c2 hd2
  have hd3' : (c3.issue gpu_op.create_host_buffer).draw_buffer_ =
      some ⟨c0.allocated_, format_desc.width, format_desc.height, 4⟩ := hd3
  have hr : c0.render is_key ready format_desc (before ++ A :: B :: after) = some
      ((((c3.issue gpu_op.create_host_buffer).issue
        (gpu_op.attach ⟨c0.allocated_, format_desc.width, format_desc.height, 4⟩)).issue
        (gpu_op.begin_read ⟨c0.allocated_, format_desc.width, format_desc.height, 4⟩)).issue
        gpu_op.flush) := by
    simp only [compositor.render, draw_layers_append, hbefore, Option.some_bind,
      compositor.draw_layers, hlayerA, hlayerB, hafter, hd3']
  refine ⟨ck, cA, c1, c2, opsA, opsB, _, ops3 ++
      [gpu_op.create_host_buffer,
        gpu_op.attach ⟨c0.allocated_, format_desc.width, format_desc.height, 4⟩,
        gpu_op.begin_read ⟨c0.allocated_, format_desc.width, format_desc.height, 4⟩,
        gpu_op.flush],
    hbefore, hitemsA, hlayerA, hopsA, hlayerB, hopsB, hr, ?_, hkeyA, hsomeA, hnewA,
    fun k hk hf => (hfillB k hk hf).1, ?_⟩
  · simp only [compositor.issue, hops3, List.append_assoc]
    rfl
  · rw [hobsB, hsomeA]

/-- C24, evaluation: the same layer list, one layer with one fill item, is composited by a
freshly constructed mixer and by a mixer whose pass before consisted of one layer with one
key item.  The fresh mixer draws the fill item with no layer key; the other mixer draws it
with a layer key, the key buffer of the pass before, which `render` does not reset. -/
theorem layer_key_survives_into_next_pass :
    Option.map (fun c => (kernel_draws c.ops_).map
          (fun k => (k.item.tag, k.local_key.isSome, k.layer_key.isSome)))
        (compositor.ctor.render example_is_key (fun _ => true) desc_pal
          [[example_fill_item]]) =
      some [(2, false, false)] ∧
    Option.map (fun c => (kernel_draws c.ops_).map
          (fun k => (k.item.tag, k.local_key.isSome, k.layer_key.isSome)))
        ((compositor.ctor.render example_is_key (fun _ => true) desc_pal
            [[example_key_item]]).bind
          (fun c => c.render example_is_key (fun _ => true) desc_pal
            [[example_fill_item]])) =
      some [(1, false, false), (2, false, true)] := by
  constructor <;>
    simp [compositor.render, compositor.begin_pass, compositor.draw_layers,
      compositor.draw_layer, compositor.draw_items, compositor.draw_item,
      compositor.draw_into, compositor.create_device_buffer, compositor.issue,
      compositor.ctor, kernel_draws, example_is_key, example_key_item, example_fill_item,
      image_transform.set_gain, image_transform.ctor, desc_pal]

end caspar.core
